import Mathlib

/-!
Verification development for the mcp-sync adapter/transformation core.

The definitions below are a shallow embedding of the TypeScript sources:
  * `src/core/schema.ts` (canonical model),
  * `src/adapters/base.ts` (`BaseAdapter.validate`, `shouldIncludeServer`,
    `transformEnv`),
  * the per-agent adapters (`claude-code.ts`, `codex.ts`, `roo-code.ts`,
    `opencode.ts`, `amp.ts`, `gemini-cli.ts`),
  * `src/core/fs-utils.ts` (`atomicWrite`).

JavaScript objects are modelled as insertion-ordered association lists
(`List (String × _)`), object property assignment as `putKey`, and object
spread as iterated assignment (`spreadMerge`).  Machine file contents are
modelled post-parse: a file either holds a parsed JSON/TOML document or raw
text on which the agent's parser fails.
-/

namespace McpSync

/-- JSON-like values, used both for agent-native server records and for the
top level of agent config files. -/
inductive JVal where
  | null : JVal
  | bool (b : Bool) : JVal
  | num (n : Int) : JVal
  | str (s : String) : JVal
  | arr (xs : List JVal) : JVal
  | obj (kvs : List (String × JVal)) : JVal

/-- The keys of a JSON object value (used to compare emitted records). -/
def objKeys : JVal → List String
  | .obj kvs => kvs.map Prod.fst
  | _ => []

/-- Property lookup on a JavaScript-object-as-association-list (first hit). -/
def alookup : List (String × α) → String → Option α
  | [], _ => none
  | (k, v) :: rest, key => if k = key then some v else alookup rest key

/-- Property assignment `o[k] = v` on a JavaScript object: overwrite in place
if the key is present, else append. -/
def putKey : List (String × α) → String → α → List (String × α)
  | [], key, v => [(key, v)]
  | (k, w) :: rest, key, v =>
    if k = key then (key, v) :: rest else (k, w) :: putKey rest key v

/-- JavaScript object spread `\x7b...old, ...new\x7d`: assign all properties of
`old`, then all properties of `new`. -/
def spreadMerge (old new : List (String × α)) : List (String × α) :=
  (old ++ new).foldl (fun acc kv => putKey acc kv.1 kv.2) []

theorem alookup_putKey_self (l : List (String × α)) (k : String) (v : α) :
    alookup (putKey l k v) k = some v := by
  induction l with
  | nil => simp [putKey, alookup]
  | cons hd tl ih =>
    by_cases h : hd.1 = k
    · simp [putKey, h, alookup]
    · simp [putKey, h, alookup, ih]

theorem alookup_putKey_ne (l : List (String × α)) (k k' : String) (v : α)
    (h : k' ≠ k) : alookup (putKey l k v) k' = alookup l k' := by
  induction l with
  | nil => simp [putKey, alookup, Ne.symm h]
  | cons hd tl ih =>
    by_cases hk : hd.1 = k
    · have h2 : ¬ (hd.1 = k') := by rw [hk]; exact Ne.symm h
      simp [putKey, hk, alookup, Ne.symm h, h2]
    · by_cases hk' : hd.1 = k'
      · simp [putKey, hk, alookup, hk', h]
      · simp [putKey, hk, alookup, hk', ih]

-- =============================================================================
-- Canonical model (src/core/schema.ts, post-parse shapes)
-- =============================================================================

/-- `AutoApproveSchema`: boolean or array of tool names. -/
inductive AutoApprove where
  | all (b : Bool) : AutoApprove
  | tools (ts : List String) : AutoApprove
deriving DecidableEq

/-- JavaScript truthiness of an `AutoApprove` value (`false` is falsy, any
array — even empty — is truthy). -/
def AutoApprove.truthy : AutoApprove → Bool
  | .all b => b
  | .tools _ => true

/-- `auth` enum of `HttpServerSchema`. -/
inductive Auth where
  | noAuth : Auth
  | oauth : Auth
  | bearer : Auth
deriving DecidableEq

/-- `AgentOverrideSchema`. -/
structure AgentOverride where
  enabled : Option Bool := none
  enabledTools : Option (List String) := none
  disabledTools : Option (List String) := none
  timeout : Option Nat := none
  autoApprove : Option AutoApprove := none
deriving DecidableEq

/-- `ServerSchema`: discriminated union of stdio and http servers. -/
inductive Server where
  | stdio (command : String) (args : List String) (env : List (String × String))
      (description : Option String) (timeout : Option Nat)
      (autoApprove : Option AutoApprove) (agents : List (String × AgentOverride))
  | http (url : String) (headers : List (String × String)) (auth : Auth)
      (description : Option String) (timeout : Option Nat)
      (autoApprove : Option AutoApprove) (agents : List (String × AgentOverride))
deriving DecidableEq

def Server.isHttp : Server → Bool
  | .stdio .. => false
  | .http .. => true

def Server.authOf : Server → Auth
  | .stdio .. => .noAuth
  | .http _ _ a _ _ _ _ => a

def Server.timeoutOf : Server → Option Nat
  | .stdio _ _ _ _ t _ _ => t
  | .http _ _ _ _ t _ _ => t

def Server.autoApproveOf : Server → Option AutoApprove
  | .stdio _ _ _ _ _ a _ => a
  | .http _ _ _ _ _ a _ => a

def Server.agentsOf : Server → List (String × AgentOverride)
  | .stdio _ _ _ _ _ _ ags => ags
  | .http _ _ _ _ _ _ ags => ags

/-- `DefaultsSchema` (post-parse: both fields carry their zod defaults). -/
structure Defaults where
  timeout : Nat := 60
  autoApprove : AutoApprove := .all false
deriving DecidableEq

/-- `AgentConfigSchema` (scope omitted: no claim depends on it). -/
structure AgentConfig where
  enabled : Bool := true
deriving DecidableEq

/-- `ExclusionSchema`. -/
structure Exclusion where
  server : String
  agent : String
  reason : Option String := none
deriving DecidableEq

/-- `CanonicalConfigSchema` (version tag omitted: always "1" post-parse). -/
structure CanonicalConfig where
  defaults : Defaults := {}
  servers : List (String × Server) := []
  agents : List (String × AgentConfig) := []
  exclusions : List Exclusion := []
deriving DecidableEq

-- =============================================================================
-- BaseAdapter (src/adapters/base.ts)
-- =============================================================================

/-- `AgentCapabilities` of schema.ts (the adapters additionally declare a
`supportsCwd` flag absent from this interface; no claim depends on it). -/
structure AgentCapabilities where
  supportsHttp : Bool
  supportsOAuth : Bool
  supportsToolFiltering : Bool
  supportsAutoApprove : Bool
  supportsTimeout : Bool
  supportsProjectScope : Bool
deriving DecidableEq

inductive IssueType where
  | error : IssueType
  | warning : IssueType
deriving DecidableEq

/-- `ValidationIssue` (the optional `field` member is never populated by
`BaseAdapter.validate` and is omitted). -/
structure ValidationIssue where
  type : IssueType
  message : String
  server : Option String := none
deriving DecidableEq

structure ValidationResult where
  valid : Bool
  issues : List ValidationIssue
deriving DecidableEq

/-- The issues `BaseAdapter.validate` pushes for one `(serverName, server)`
entry, in source order: HTTP support (error), OAuth support (warning), tool
filtering (warning), autoApprove (warning), bearer auth (warning). -/
def validateServer (dn an : String) (caps : AgentCapabilities)
    (cfg : CanonicalConfig) (name : String) (server : Server) :
    List ValidationIssue :=
  (if server.isHttp && !caps.supportsHttp then
    [{ type := .error, message := dn ++ " does not support HTTP/remote servers",
       server := some name }] else [])
  ++ (if server.isHttp && (server.authOf == Auth.oauth) && !caps.supportsOAuth then
    [{ type := .warning, message := dn ++ " does not support OAuth authentication",
       server := some name }] else [])
  ++ (match alookup server.agentsOf an with
      | some o =>
        if (o.enabledTools.isSome || o.disabledTools.isSome)
            && !caps.supportsToolFiltering then
          [{ type := .warning,
             message := dn ++ " does not support tool filtering (enabledTools/disabledTools will be ignored)",
             server := some name }]
        else []
      | none => [])
  ++ (if ((server.autoApproveOf).getD cfg.defaults.autoApprove).truthy
        && !caps.supportsAutoApprove then
    [{ type := .warning, message := dn ++ " does not support autoApprove (will be ignored)",
       server := some name }] else [])
  ++ (if server.isHttp && (server.authOf == Auth.bearer) then
    [{ type := .warning, message := dn ++ ": bearer auth requires manual header configuration",
       server := some name }] else [])

/-- All issues produced by `BaseAdapter.validate`, in registry order. -/
def validateIssues (dn an : String) (caps : AgentCapabilities)
    (cfg : CanonicalConfig) : List ValidationIssue :=
  cfg.servers.foldr (fun p acc => validateServer dn an caps cfg p.1 p.2 ++ acc) []

/-- `BaseAdapter.validate`: `valid` is the absence of error-type issues. -/
def validate (dn an : String) (caps : AgentCapabilities)
    (cfg : CanonicalConfig) : ValidationResult :=
  let issues := validateIssues dn an caps cfg
  { valid := !(issues.any fun i => i.type == IssueType.error), issues := issues }

/-- The issue `validate` pushes first for an HTTP server on an
HTTP-incapable agent. -/
def httpErrorIssue (dn name : String) : ValidationIssue :=
  ValidationIssue.mk IssueType.error
    (dn ++ " does not support HTTP/remote servers") (some name)

/-- `BaseAdapter.shouldIncludeServer`: exclusion rules first, then the
per-agent `enabled === false` override. -/
def shouldIncludeServer (an : String) (name : String) (server : Server)
    (cfg : CanonicalConfig) : Bool :=
  if cfg.exclusions.any fun e => e.server == name && e.agent == an then false
  else
    match alookup server.agentsOf an with
    | some o => !(o.enabled == some false)
    | none => true

/-- The single-server sub-registry `\x7b ...config, servers: \x7b [name]: server \x7d \x7d`
each adapter's write loop validates. -/
def singleServer (cfg : CanonicalConfig) (name : String) (server : Server) :
    CanonicalConfig :=
  { cfg with servers := [(name, server)] }

/-- Whether the single-server validation of the write loop drops the server. -/
def writeHasError (dn an : String) (caps : AgentCapabilities)
    (cfg : CanonicalConfig) (name : String) (server : Server) : Bool :=
  (validate dn an caps (singleServer cfg name server)).issues.any
    fun i => i.type == IssueType.error

/-- Body of the per-adapter write loop, shared verbatim by all six adapters:
skip excluded servers, validate a single-server sub-registry, skip on
error-type issues, else assign the transformed record into the output object.
(The adapters additionally push warnings, which do not affect the emitted
set.) -/
def computeServersGo (dn an : String) (caps : AgentCapabilities)
    (transform : String → Server → α) (cfg : CanonicalConfig) :
    List (String × Server) → List (String × α) → List (String × α)
  | [], acc => acc
  | (n, s) :: rest, acc =>
    if shouldIncludeServer an n s cfg then
      if writeHasError dn an caps cfg n s then
        computeServersGo dn an caps transform cfg rest acc
      else
        computeServersGo dn an caps transform cfg rest (putKey acc n (transform n s))
    else computeServersGo dn an caps transform cfg rest acc

/-- The native server set an adapter's write emits. -/
def computeServers (dn an : String) (caps : AgentCapabilities)
    (transform : String → Server → α) (cfg : CanonicalConfig) :
    List (String × α) :=
  computeServersGo dn an caps transform cfg cfg.servers []

-- =============================================================================
-- Environment-reference rewriting (RooCodeAdapter.transformEnvForRoo,
-- OpenCodeAdapter.transformEnvForOpenCode).  The three regexes of the source
--   1. /\$\x7b([^\x7d:]+):-[^\x7d]*\x7d/g
--   2. /\$\x7b([^\x7d:]+)\x7d/g
--   3. /\$([A-Z_][A-Z0-9_]*)/g
-- are modelled as deterministic left-to-right scanners (the character classes
-- exclude their terminators, so the regexes never backtrack).
-- =============================================================================

/-- Characters admitted by the `[^\x7d:]` class of regexes 1 and 2. -/
def nameChar (c : Char) : Bool := c != '\x7d' && c != ':'

/-- Characters admitted by the `[^\x7d]` class (default text). -/
def notBrace (c : Char) : Bool := c != '\x7d'

def isUpperAscii (c : Char) : Bool := 'A' ≤ c && c ≤ 'Z'

def isDigitAscii (c : Char) : Bool := '0' ≤ c && c ≤ '9'

/-- `[A-Z_]`, the first character of a bare reference. -/
def isBareStart (c : Char) : Bool := isUpperAscii c || c == '_'

/-- `[A-Z0-9_]`, subsequent characters of a bare reference. -/
def isBareChar (c : Char) : Bool := isUpperAscii c || isDigitAscii c || c == '_'

/-- Match of regex 1, `$\x7bVAR:-default\x7d`, at the start of the input;
returns the captured variable name and the text after the match. -/
def matchDefault (s : List Char) : Option (List Char × List Char) :=
  match s with
  | c1 :: c2 :: rest =>
    if c1 = '$' ∧ c2 = '\x7b' then
      let name := rest.takeWhile nameChar
      if name.isEmpty then none
      else
        match rest.dropWhile nameChar with
        | d1 :: d2 :: r2 =>
          if d1 = ':' ∧ d2 = '-' then
            match r2.dropWhile notBrace with
            | e :: suffix => if e = '\x7d' then some (name, suffix) else none
            | [] => none
          else none
        | _ => none
    else none
  | _ => none

/-- Match of regex 2, `$\x7bVAR\x7d`, at the start of the input. -/
def matchBraced (s : List Char) : Option (List Char × List Char) :=
  match s with
  | c1 :: c2 :: rest =>
    if c1 = '$' ∧ c2 = '\x7b' then
      let name := rest.takeWhile nameChar
      if name.isEmpty then none
      else
        match rest.dropWhile nameChar with
        | e :: suffix => if e = '\x7d' then some (name, suffix) else none
        | [] => none
    else none
  | _ => none

/-- Match of regex 3, bare `$VAR`, at the start of the input. -/
def matchBare (s : List Char) : Option (List Char × List Char) :=
  match s with
  | c1 :: c2 :: rest =>
    if c1 = '$' ∧ isBareStart c2 then
      some (c2 :: rest.takeWhile isBareChar, rest.dropWhile isBareChar)
    else none
  | _ => none

/-- One global-replace pass: try the matcher at each position, replace a match
with `wrap name` and continue after the matched span (replacements are not
re-scanned, as with JavaScript `String.replace`).  The fuel argument makes the
recursion structural; it is initialised to the input length, which every
matcher's consumption of at least one character keeps sufficient. -/
def passF (m : List Char → Option (List Char × List Char))
    (wrap : List Char → List Char) : Nat → List Char → List Char
  | 0, l => l
  | _ + 1, [] => []
  | fuel + 1, c :: rest =>
    match m (c :: rest) with
    | some (name, suffix) => wrap name ++ passF m wrap fuel suffix
    | none => c :: passF m wrap fuel rest

def runPass (m : List Char → Option (List Char × List Char))
    (wrap : List Char → List Char) (l : List Char) : List Char :=
  passF m wrap l.length l

/-- Whether regex 1 matches anywhere (the source's
`transformed.match(/\$\x7b([^\x7d:]+):-[^\x7d]*\x7d/g)` truthiness test). -/
def containsDefault : List Char → Bool
  | [] => false
  | c :: rest => (matchDefault (c :: rest)).isSome || containsDefault rest

/-- Roo Code replacement text `$\x7benv:NAME\x7d`. -/
def rooWrap (name : List Char) : List Char :=
  '$' :: '\x7b' :: 'e' :: 'n' :: 'v' :: ':' :: (name ++ ['\x7d'])

/-- OpenCode replacement text `\x7benv:NAME\x7d` (no dollar sign). -/
def openWrap (name : List Char) : List Char :=
  '\x7b' :: 'e' :: 'n' :: 'v' :: ':' :: (name ++ ['\x7d'])

/-- The value rewrite of `transformEnvForRoo`: drop defaults (regex 1, only
run when it matched, a no-op otherwise), then braced references (regex 2),
then bare references (regex 3). -/
def rooRewriteList (l : List Char) : List Char :=
  let l1 := if containsDefault l then runPass matchDefault rooWrap l else l
  runPass matchBare rooWrap (runPass matchBraced rooWrap l1)

def rooRewrite (s : String) : String := (rooRewriteList s.toList).asString

/-- The value rewrite of `transformEnvForOpenCode`. -/
def openRewriteList (l : List Char) : List Char :=
  let l1 := if containsDefault l then runPass matchDefault openWrap l else l
  runPass matchBare openWrap (runPass matchBraced openWrap l1)

def openRewrite (s : String) : String := (openRewriteList s.toList).asString

/-- Warning pushed by `transformEnvForRoo` when a value carries a default. -/
def rooDefaultWarning (serverName key : String) : String :=
  "Roo Code does not support env var defaults. Server \"" ++ serverName
    ++ "\" env \"" ++ key ++ "\": defaults will be dropped."

/-- Warning pushed by `transformEnvForOpenCode`; `context` is `environment`
for env values and `headers` for HTTP header values. -/
def openDefaultWarning (serverName context key : String) : String :=
  "OpenCode does not support env var defaults. Server \"" ++ serverName
    ++ "\" " ++ context ++ " \"" ++ key ++ "\": defaults will be dropped."

/-- `RooCodeAdapter.transformEnvForRoo`: rewrite every value, pushing one
warning per key whose value matched regex 1. -/
def transformEnvForRoo (serverName : String) (env : List (String × String)) :
    List (String × String) × List String :=
  env.foldl
    (fun acc kv =>
      let ws := if containsDefault kv.2.toList
        then acc.2 ++ [rooDefaultWarning serverName kv.1] else acc.2
      (putKey acc.1 kv.1 (rooRewrite kv.2), ws))
    ([], [])

/-- `OpenCodeAdapter.transformEnvForOpenCode`. -/
def transformEnvForOpenCode (serverName context : String)
    (env : List (String × String)) :
    List (String × String) × List String :=
  env.foldl
    (fun acc kv =>
      let ws := if containsDefault kv.2.toList
        then acc.2 ++ [openDefaultWarning serverName context kv.1] else acc.2
      (putKey acc.1 kv.1 (openRewrite kv.2), ws))
    ([], [])

-- =============================================================================
-- Passthrough env handling (BaseAdapter.transformEnv).  Every adapter call
-- site uses the default `keepReference = true`, under which
-- `resolveEnvValue` returns its argument unchanged (the `keepReference =
-- false` branch reads `process.env` and is never invoked by an adapter).
-- =============================================================================

def resolveEnvValue (value : String) : String := value

def transformEnv (env : List (String × String)) : List (String × String) :=
  env.map fun kv => (kv.1, resolveEnvValue kv.2)

def envToJ (env : List (String × String)) : JVal :=
  .obj (env.map fun kv => (kv.1, JVal.str kv.2))

def strArrJ (xs : List String) : JVal := .arr (xs.map JVal.str)

/-- `server.autoApprove ?? config.defaults?.autoApprove` (defaults always
present post-parse). -/
def effAutoApprove (server : Server) (cfg : CanonicalConfig) : AutoApprove :=
  (server.autoApproveOf).getD cfg.defaults.autoApprove

/-- `server.timeout ?? config.defaults?.timeout`. -/
def effTimeout (server : Server) (cfg : CanonicalConfig) : Nat :=
  (server.timeoutOf).getD cfg.defaults.timeout

-- =============================================================================
-- ClaudeCodeAdapter (src/adapters/claude-code.ts)
-- =============================================================================

def claudeCaps : AgentCapabilities :=
  { supportsHttp := true, supportsOAuth := true, supportsToolFiltering := false,
    supportsAutoApprove := false, supportsTimeout := true,
    supportsProjectScope := true }

/-- `ClaudeCodeAdapter.transformStdioServer`: always sets `type: "stdio"`,
then `command`, then `args`/`env` only when non-empty. -/
def claudeTransformStdio (command : String) (args : List String)
    (env : List (String × String)) : JVal :=
  .obj ([("type", JVal.str "stdio"), ("command", JVal.str command)]
    ++ (if args.length > 0 then [("args", strArrJ args)] else [])
    ++ (if (transformEnv env).length > 0 then [("env", envToJ (transformEnv env))] else []))

/-- `ClaudeCodeAdapter.transformHttpServer`. -/
def claudeTransformHttp (url : String) (headers : List (String × String)) : JVal :=
  .obj ([("type", JVal.str "http"), ("url", JVal.str url)]
    ++ (if (transformEnv headers).length > 0
        then [("headers", envToJ (transformEnv headers))] else []))

def claudeTransformServer : Server → JVal
  | .stdio command args env _ _ _ _ => claudeTransformStdio command args env
  | .http url headers _ _ _ _ _ => claudeTransformHttp url headers

def claudeComputeServers (cfg : CanonicalConfig) : List (String × JVal) :=
  computeServers "Claude Code" "claude-code" claudeCaps
    (fun _ s => claudeTransformServer s) cfg

-- =============================================================================
-- CodexAdapter (src/adapters/codex.ts)
-- =============================================================================

def codexCaps : AgentCapabilities :=
  { supportsHttp := true, supportsOAuth := true, supportsToolFiltering := true,
    supportsAutoApprove := false, supportsTimeout := true,
    supportsProjectScope := false }

/-- `[^\x7d:-]`: the variable-name class of the bearer-extraction regex
`/\$\x7b([^\x7d:-]+)(?::-[^\x7d]*)?\x7d/`. -/
def bearerNameChar (c : Char) : Bool := c != '\x7d' && c != ':' && c != '-'

/-- Match of the bearer-extraction regex at the start of the input; returns
the captured variable name. -/
def matchBearerAt (s : List Char) : Option (List Char) :=
  match s with
  | c1 :: c2 :: rest =>
    if c1 = '$' ∧ c2 = '\x7b' then
      let name := rest.takeWhile bearerNameChar
      if name.isEmpty then none
      else
        match rest.dropWhile bearerNameChar with
        | '\x7d' :: _ => some name
        | ':' :: '-' :: r2 =>
          match r2.dropWhile notBrace with
          | '\x7d' :: _ => some name
          | _ => none
        | _ => none
    else none
  | _ => none

/-- First match of the bearer-extraction regex anywhere in the string
(`authHeader.match(...)`). -/
def findBearerVar : List Char → Option (List Char)
  | [] => none
  | c :: rest =>
    match matchBearerAt (c :: rest) with
    | some name => some name
    | none => findBearerVar rest

/-- `value.startsWith('$\x7b')`. -/
def startsWithDollarBrace (s : String) : Bool :=
  match s.toList with
  | '$' :: '\x7b' :: _ => true
  | _ => false

/-- `value.endsWith('\x7d')`. -/
def endsWithBrace (s : String) : Bool :=
  match s.toList.getLast? with
  | some '\x7d' => true
  | _ => false

/-- `split(':-')[0]`: the characters before the first `:-` occurrence. -/
def takeBeforeColonDash : List Char → List Char
  | [] => []
  | [c] => [c]
  | c :: d :: rest =>
    if c = ':' ∧ d = '-' then [] else c :: takeBeforeColonDash (d :: rest)

/-- `value.slice(2, -1).split(':-')[0]` of the Codex header loop. -/
def innerName (s : String) : String :=
  (takeBeforeColonDash ((s.toList.drop 2).dropLast)).asString

/-- One step of the Codex header loop: skip `Authorization` when a bearer
token variable was extracted, route values of the shape `$\x7b...\x7d` to
`env_http_headers` (with `slice(2,-1).split(':-')[0]` as value) and all other
values verbatim to `http_headers`. -/
def codexHeaderStep (bearerSet : Bool)
    (acc : List (String × String) × List (String × String))
    (kv : String × String) : List (String × String) × List (String × String) :=
  if kv.1 = "Authorization" ∧ bearerSet then acc
  else if startsWithDollarBrace kv.2 && endsWithBrace kv.2 then
    (acc.1, putKey acc.2 kv.1 (innerName kv.2))
  else (putKey acc.1 kv.1 kv.2, acc.2)

/-- The Codex header split: `(http_headers, env_http_headers)`. -/
def codexSplitHeaders (bearerSet : Bool) (headers : List (String × String)) :
    List (String × String) × List (String × String) :=
  headers.foldl (codexHeaderStep bearerSet) ([], [])

/-- The `bearer_token_env_var` extraction of `CodexAdapter.transformHttpServer`:
only for `auth: 'bearer'`, from the `Authorization` header if present. -/
def codexBearerVar (auth : Auth) (headers : List (String × String)) :
    Option String :=
  if auth = Auth.bearer then
    match alookup headers "Authorization" with
    | some a => (findBearerVar a.toList).map List.asString
    | none => none
  else none

/-- `CodexAdapter.transformHttpServer`, with fields in source insertion
order. -/
def codexTransformHttp (cfg : CanonicalConfig) (server : Server)
    (url : String) (headers : List (String × String)) (auth : Auth) : JVal :=
  let bearer := codexBearerVar auth headers
  let split := codexSplitHeaders bearer.isSome headers
  .obj ([("url", JVal.str url)]
    ++ (match bearer with
        | some v => [("bearer_token_env_var", JVal.str v)]
        | none => [])
    ++ (if split.1.length > 0 then [("http_headers", envToJ split.1)] else [])
    ++ (if split.2.length > 0 then [("env_http_headers", envToJ split.2)] else [])
    ++ (if effTimeout server cfg ≠ 0
        then [("tool_timeout_sec", JVal.num (effTimeout server cfg))] else [])
    ++ (match alookup server.agentsOf "codex" with
        | some o =>
          (match o.enabledTools with
           | some ts => [("enabled_tools", strArrJ ts)]
           | none => [])
          ++ (match o.disabledTools with
              | some ts => [("disabled_tools", strArrJ ts)]
              | none => [])
        | none => []))

/-- `CodexAdapter.transformStdioServer`. -/
def codexTransformStdio (cfg : CanonicalConfig) (server : Server)
    (command : String) (args : List String) (env : List (String × String)) : JVal :=
  .obj ([("command", JVal.str command)]
    ++ (if args.length > 0 then [("args", strArrJ args)] else [])
    ++ (if (transformEnv env).length > 0 then [("env", envToJ (transformEnv env))] else [])
    ++ (if effTimeout server cfg ≠ 0
        then [("tool_timeout_sec", JVal.num (effTimeout server cfg))] else [])
    ++ (match alookup server.agentsOf "codex" with
        | some o =>
          (match o.enabledTools with
           | some ts => [("enabled_tools", strArrJ ts)]
           | none => [])
          ++ (match o.disabledTools with
              | some ts => [("disabled_tools", strArrJ ts)]
              | none => [])
        | none => []))

def codexTransformServer (cfg : CanonicalConfig) : Server → JVal
  | .stdio command args env d t a ags =>
    codexTransformStdio cfg (.stdio command args env d t a ags) command args env
  | .http url headers auth d t a ags =>
    codexTransformHttp cfg (.http url headers auth d t a ags) url headers auth

def codexComputeServers (cfg : CanonicalConfig) : List (String × JVal) :=
  computeServers "OpenAI Codex" "codex" codexCaps
    (fun _ s => codexTransformServer cfg s) cfg

-- =============================================================================
-- RooCodeAdapter (src/adapters/roo-code.ts)
-- =============================================================================

def rooCaps : AgentCapabilities :=
  { supportsHttp := true, supportsOAuth := false, supportsToolFiltering := false,
    supportsAutoApprove := true, supportsTimeout := false,
    supportsProjectScope := true }

/-- `alwaysAllow` handling shared by the Roo transforms: only a non-empty
array form of the effective autoApprove is emitted. -/
def rooAlwaysAllow (server : Server) (cfg : CanonicalConfig) : List (String × JVal) :=
  match effAutoApprove server cfg with
  | .tools ts => if ts.length > 0 then [("alwaysAllow", strArrJ ts)] else []
  | .all _ => []

/-- `RooCodeAdapter.transformStdioServer`. -/
def rooTransformStdio (cfg : CanonicalConfig) (serverName : String)
    (server : Server) (command : String) (args : List String)
    (env : List (String × String)) : JVal :=
  let env' := (transformEnvForRoo serverName env).1
  .obj ([("command", JVal.str command)]
    ++ (if args.length > 0 then [("args", strArrJ args)] else [])
    ++ (if env'.length > 0 then [("env", envToJ env')] else [])
    ++ rooAlwaysAllow server cfg)

/-- `RooCodeAdapter.transformHttpServer`. -/
def rooTransformHttp (cfg : CanonicalConfig) (server : Server) (url : String) : JVal :=
  .obj ([("type", JVal.str "streamable-http"), ("url", JVal.str url)]
    ++ rooAlwaysAllow server cfg)

def rooTransformServer (cfg : CanonicalConfig) (serverName : String) :
    Server → JVal
  | .stdio command args env d t a ags =>
    rooTransformStdio cfg serverName (.stdio command args env d t a ags) command args env
  | .http url headers auth d t a ags =>
    rooTransformHttp cfg (.http url headers auth d t a ags) url

def rooComputeServers (cfg : CanonicalConfig) : List (String × JVal) :=
  computeServers "Roo Code" "roo-code" rooCaps
    (fun n s => rooTransformServer cfg n s) cfg

-- =============================================================================
-- OpenCodeAdapter (src/adapters/opencode.ts)
-- =============================================================================

def opencodeCaps : AgentCapabilities :=
  { supportsHttp := true, supportsOAuth := false, supportsToolFiltering := true,
    supportsAutoApprove := true, supportsTimeout := false,
    supportsProjectScope := true }

def opencodeDisabledTools (server : Server) : List (String × JVal) :=
  match alookup server.agentsOf "opencode" with
  | some o =>
    match o.disabledTools with
    | some ts => if ts.length > 0 then [("disabledTools", strArrJ ts)] else []
    | none => []
  | none => []

def opencodeAutoApprove (server : Server) (cfg : CanonicalConfig) :
    List (String × JVal) :=
  match effAutoApprove server cfg with
  | .tools ts => if ts.length > 0 then [("autoApprove", strArrJ ts)] else []
  | .all _ => []

/-- `OpenCodeAdapter.transformStdioServer`: the native `command` is the array
`[command, ...args]`, a single-element array when there are no args. -/
def opencodeTransformStdio (cfg : CanonicalConfig) (serverName : String)
    (server : Server) (command : String) (args : List String)
    (env : List (String × String)) : JVal :=
  let commandArr := if args.length > 0 then command :: args else [command]
  let env' := (transformEnvForOpenCode serverName "environment" env).1
  .obj ([("type", JVal.str "local"), ("command", strArrJ commandArr)]
    ++ (if env'.length > 0 then [("environment", envToJ env')] else [])
    ++ opencodeDisabledTools server
    ++ opencodeAutoApprove server cfg)

/-- `OpenCodeAdapter.transformHttpServer`. -/
def opencodeTransformHttp (cfg : CanonicalConfig) (serverName : String)
    (server : Server) (url : String) (headers : List (String × String)) : JVal :=
  let headers' := (transformEnvForOpenCode serverName "headers" headers).1
  .obj ([("type", JVal.str "remote"), ("url", JVal.str url)]
    ++ (if headers'.length > 0 then [("headers", envToJ headers')] else [])
    ++ opencodeDisabledTools server
    ++ opencodeAutoApprove server cfg)

def opencodeTransformServer (cfg : CanonicalConfig) (serverName : String) :
    Server → JVal
  | .stdio command args env d t a ags =>
    opencodeTransformStdio cfg serverName (.stdio command args env d t a ags)
      command args env
  | .http url headers auth d t a ags =>
    opencodeTransformHttp cfg serverName (.http url headers auth d t a ags)
      url headers

def opencodeComputeServers (cfg : CanonicalConfig) : List (String × JVal) :=
  computeServers "OpenCode" "opencode" opencodeCaps
    (fun n s => opencodeTransformServer cfg n s) cfg

-- =============================================================================
-- AmpAdapter (src/adapters/amp.ts)
-- =============================================================================

def ampCaps : AgentCapabilities :=
  { supportsHttp := true, supportsOAuth := false, supportsToolFiltering := true,
    supportsAutoApprove := false, supportsTimeout := false,
    supportsProjectScope := true }

def ampIncludeTools (server : Server) : List (String × JVal) :=
  match alookup server.agentsOf "amp" with
  | some o =>
    match o.enabledTools with
    | some ts => if ts.length > 0 then [("includeTools", strArrJ ts)] else []
    | none => []
  | none => []

/-- `AmpAdapter.transformStdioServer`. -/
def ampTransformStdio (server : Server) (command : String) (args : List String)
    (env : List (String × String)) : JVal :=
  .obj ([("command", JVal.str command)]
    ++ (if args.length > 0 then [("args", strArrJ args)] else [])
    ++ (if (transformEnv env).length > 0 then [("env", envToJ (transformEnv env))] else [])
    ++ ampIncludeTools server)

/-- `AmpAdapter.transformHttpServer`: remote servers use `httpUrl`. -/
def ampTransformHttp (server : Server) (url : String)
    (headers : List (String × String)) : JVal :=
  .obj ([("httpUrl", JVal.str url)]
    ++ (if (transformEnv headers).length > 0
        then [("headers", envToJ (transformEnv headers))] else [])
    ++ ampIncludeTools server)

def ampTransformServer : Server → JVal
  | .stdio command args env d t a ags =>
    ampTransformStdio (.stdio command args env d t a ags) command args env
  | .http url headers auth d t a ags =>
    ampTransformHttp (.http url headers auth d t a ags) url headers

def ampComputeServers (cfg : CanonicalConfig) : List (String × JVal) :=
  computeServers "Amp" "amp" ampCaps (fun _ s => ampTransformServer s) cfg

def geminiCaps : AgentCapabilities :=
  { supportsHttp := true, supportsOAuth := false, supportsToolFiltering := true,
    supportsAutoApprove := true, supportsTimeout := true,
    supportsProjectScope := true }

-- =============================================================================
-- File system model.  Contents are modelled post-parse: a file holds either a
-- parsed top-level document or raw text on which the agent's parser throws.
-- Directory creation (mkdirSync) and file modes are not modelled; no claim
-- depends on them.
-- =============================================================================

inductive Content where
  | parsed (v : List (String × JVal)) : Content
  | raw (s : String) : Content

/-- `JSON.parse` / `TOML.parse` / JSONC parse: succeeds exactly on parsed
contents. -/
def parseContent : Content → Option (List (String × JVal))
  | .parsed v => some v
  | .raw _ => none

def FS := List (String × Content)

def fsLookup (fs : FS) (p : String) : Option Content := alookup fs p

def fsExists (fs : FS) (p : String) : Bool := (fsLookup fs p).isSome

def fsWrite (fs : FS) (p : String) (c : Content) : FS := putKey fs p c

def fsRemove (fs : FS) (p : String) : FS :=
  List.filter (fun kv => kv.1 != p) fs

def fsCopy (fs : FS) (src dst : String) : FS :=
  match fsLookup fs src with
  | some c => putKey fs dst c
  | none => fs

def fsRename (fs : FS) (src dst : String) : FS :=
  match fsLookup fs src with
  | some c => putKey (fsRemove fs src) dst c
  | none => fs

/-- Observable file-system mutations, recorded as a trace. -/
inductive FsOp where
  | write (path : String) (content : Content) : FsOp
  | copy (src dst : String) : FsOp
  | rename (src dst : String) : FsOp
  | remove (path : String) : FsOp

/-- Whether an operation mutates the file at `p`. -/
def opTouches (p : String) : FsOp → Bool
  | .write q _ => q == p
  | .copy _ dst => dst == p
  | .rename _ dst => dst == p
  | .remove q => q == p

structure AtomicResult where
  fs : FS
  ops : List FsOp
  ok : Bool

def tempPath (path : String) (pid : Nat) : String :=
  path ++ ".tmp." ++ toString pid

def bakPath (path : String) : String := path ++ ".bak"

/-- `atomicWrite` of src/core/fs-utils.ts: back up an existing target to
`<path>.bak`, write the content to a sibling pid-suffixed temp file, rename
the temp file over the target; on a write-step failure (`writeFails`), unlink
the temp file and rethrow (`ok = false`). -/
def atomicWrite (path : String) (content : Content) (backup : Bool) (pid : Nat)
    (writeFails : Bool) (fs : FS) : AtomicResult :=
  let didBackup := backup && fsExists fs path
  let fs1 := if didBackup then fsCopy fs path (bakPath path) else fs
  let ops1 : List FsOp := if didBackup then [.copy path (bakPath path)] else []
  let tmp := tempPath path pid
  if writeFails then
    { fs := fsRemove fs1 tmp, ops := ops1 ++ [.remove tmp], ok := false }
  else
    { fs := fsRename (fsWrite fs1 tmp content) tmp path,
      ops := ops1 ++ [.write tmp content, .rename tmp path], ok := true }

/-- The parse-failure message of the strict adapters (Roo Code, OpenCode,
Gemini CLI, Amp); the JavaScript parser's own message is abstracted. -/
def mkParseError (path : String) : String :=
  "Failed to parse " ++ path
    ++ ": <parser error>\nFix the file manually or use --force to overwrite."

/-- The existing-config read of the strict adapters: missing file means empty
object, parse failure throws unless `force`. -/
def readExistingStrict (path : String) (force : Bool) (fs : FS) :
    Except String (List (String × JVal)) :=
  match fsLookup fs path with
  | none => .ok []
  | some c =>
    match parseContent c with
    | some v => .ok v
    | none => if force then .ok [] else .error (mkParseError path)

/-- The existing-config read of `CodexAdapter.write` and
`ClaudeCodeAdapter.write`: a parse failure silently starts from an empty
object, with no force check. -/
def readExistingLenient (path : String) (fs : FS) : List (String × JVal) :=
  match fsLookup fs path with
  | none => []
  | some c => (parseContent c).getD []

/-- The object held at `key` of a parsed document (spread of a missing or
non-object property is the empty object). -/
def objEntries : Option JVal → List (String × JVal)
  | some (.obj kvs) => kvs
  | _ => []

/-- The subtree update shared by the Roo Code, OpenCode, Gemini CLI, Amp and
Codex writes: replace the MCP-server subtree wholesale, or spread-merge into
it when `merge` is set. -/
def replaceOrMergeSubtree (key : String) (existing : List (String × JVal))
    (servers : List (String × JVal)) (merge : Bool) : List (String × JVal) :=
  let newSub := if merge then spreadMerge (objEntries (alookup existing key)) servers
    else servers
  putKey existing key (.obj newSub)

def rooUpdateFile (existing servers : List (String × JVal)) (merge : Bool) :
    List (String × JVal) :=
  replaceOrMergeSubtree "mcpServers" existing servers merge

def opencodeUpdateFile (existing servers : List (String × JVal)) (merge : Bool) :
    List (String × JVal) :=
  replaceOrMergeSubtree "mcp" existing servers merge

def geminiUpdateFile (existing servers : List (String × JVal)) (merge : Bool) :
    List (String × JVal) :=
  replaceOrMergeSubtree "mcpServers" existing servers merge

def ampUpdateFile (existing servers : List (String × JVal)) (merge : Bool) :
    List (String × JVal) :=
  replaceOrMergeSubtree "amp.mcpServers" existing servers merge

def codexUpdateFile (existing servers : List (String × JVal)) (merge : Bool) :
    List (String × JVal) :=
  replaceOrMergeSubtree "mcp_servers" existing servers merge

/-- The global-scope subtree update of `ClaudeCodeAdapter.write`: always a
spread-merge `\x7b ...existing.mcpServers, ...claudeServers \x7d`, with no
merge/replace option. -/
def claudeUpdateFileGlobal (existing servers : List (String × JVal)) :
    List (String × JVal) :=
  putKey existing "mcpServers"
    (.obj (spreadMerge (objEntries (alookup existing "mcpServers")) servers))

/-- `SyncResult` (the `warnings`/`error` members are omitted: warning
accumulation is modelled at the transformer level and errors as the `Except`
of the write functions). -/
structure SyncResult where
  success : Bool
  serversWritten : Nat
deriving DecidableEq

structure WriteOutcome where
  fs : FS
  ops : List FsOp
  result : Except String SyncResult

/-- `OpenCodeAdapter.write` (path resolution externalised): transform, read
the existing config honouring `force`, replace or merge the `mcp` subtree,
persist via `atomicWrite` with backup. -/
def opencodeWrite (cfg : CanonicalConfig) (path : String) (merge force : Bool)
    (pid : Nat) (writeFails : Bool) (fs : FS) : WriteOutcome :=
  let servers := opencodeComputeServers cfg
  match readExistingStrict path force fs with
  | .error e => { fs := fs, ops := [], result := .error e }
  | .ok existing =>
    let updated := opencodeUpdateFile existing servers merge
    let aw := atomicWrite path (.parsed updated) true pid writeFails fs
    { fs := aw.fs, ops := aw.ops,
      result := if aw.ok
        then .ok { success := true, serversWritten := servers.length }
        else .error "write failed" }

/-- `RooCodeAdapter.write`. -/
def rooWrite (cfg : CanonicalConfig) (path : String) (merge force : Bool)
    (pid : Nat) (writeFails : Bool) (fs : FS) : WriteOutcome :=
  let servers := rooComputeServers cfg
  match readExistingStrict path force fs with
  | .error e => { fs := fs, ops := [], result := .error e }
  | .ok existing =>
    let updated := rooUpdateFile existing servers merge
    let aw := atomicWrite path (.parsed updated) true pid writeFails fs
    { fs := aw.fs, ops := aw.ops,
      result := if aw.ok
        then .ok { success := true, serversWritten := servers.length }
        else .error "write failed" }

/-- `AmpAdapter.write`. -/
def ampWrite (cfg : CanonicalConfig) (path : String) (merge force : Bool)
    (pid : Nat) (writeFails : Bool) (fs : FS) : WriteOutcome :=
  let servers := ampComputeServers cfg
  match readExistingStrict path force fs with
  | .error e => { fs := fs, ops := [], result := .error e }
  | .ok existing =>
    let updated := ampUpdateFile existing servers merge
    let aw := atomicWrite path (.parsed updated) true pid writeFails fs
    { fs := aw.fs, ops := aw.ops,
      result := if aw.ok
        then .ok { success := true, serversWritten := servers.length }
        else .error "write failed" }

/-- `CodexAdapter.write`: lenient existing-config read (parse failure starts
fresh, ignoring `force`), then a direct `writeFileSync` of the stringified
document — no temp file, no rename, no backup. -/
def codexWrite (cfg : CanonicalConfig) (path : String) (merge : Bool)
    (fs : FS) : WriteOutcome :=
  let servers := codexComputeServers cfg
  let existing := readExistingLenient path fs
  let updated := codexUpdateFile existing servers merge
  { fs := fsWrite fs path (.parsed updated),
    ops := [.write path (.parsed updated)],
    result := .ok { success := true, serversWritten := servers.length } }

/-- `ClaudeCodeAdapter.write` at global scope: lenient existing-config read,
spread-merge into `mcpServers`, direct `writeFileSync`. -/
def claudeWriteGlobal (cfg : CanonicalConfig) (path : String) (fs : FS) :
    WriteOutcome :=
  let servers := claudeComputeServers cfg
  let existing := readExistingLenient path fs
  let updated := claudeUpdateFileGlobal existing servers
  { fs := fsWrite fs path (.parsed updated),
    ops := [.write path (.parsed updated)],
    result := .ok { success := true, serversWritten := servers.length } }

/-- Field lookup on a JSON object value. -/
def objGet (j : JVal) (k : String) : Option JVal :=
  match j with
  | .obj kvs => alookup kvs k
  | _ => none

-- =============================================================================
-- Concrete fixtures used by counterexamples and witnesses.
-- =============================================================================

/-- An empty canonical registry. -/
def cfgEmpty : CanonicalConfig := {}

/-- A minimal stdio server. -/
def srvMinimal : Server := .stdio "run" [] [] none none none []

/-- The concrete stdio server of spec scenario 1. -/
def srvNode : Server :=
  .stdio "node" ["server.js"] [("API_KEY", "$\x7bAPI_KEY\x7d")] none none none []

/-- One-server registry holding `srvNode` under the name `srv`. -/
def cfgNode : CanonicalConfig := { servers := [("srv", srvNode)] }

/-- Registry with `srv` excluded for opencode by an exclusion rule. -/
def cfgExcluded : CanonicalConfig :=
  { servers := [("srv", srvMinimal)],
    exclusions := [{ server := "srv", agent := "opencode" }] }

/-- A capability table with `supportsHttp` disabled (the agents planned as
stubs; none of the six implemented adapters disables HTTP). -/
def capsNoHttp : AgentCapabilities :=
  { supportsHttp := false, supportsOAuth := false, supportsToolFiltering := false,
    supportsAutoApprove := false, supportsTimeout := false,
    supportsProjectScope := false }

/-- A minimal HTTP server. -/
def srvHttp : Server := .http "https://h.example" [] .noAuth none none none []

/-- Registry holding only `srvHttp` under the name `h`. -/
def cfgHttp : CanonicalConfig := { servers := [("h", srvHttp)] }

/-- An OAuth HTTP server: produces only warnings on OAuth-less agents. -/
def srvOauth : Server := .http "https://w.example" [] .oauth none none none []

/-- Registry holding only `srvOauth` under the name `w`. -/
def cfgWarn : CanonicalConfig := { servers := [("w", srvOauth)] }

/-- An HTTP server with bearer auth, an env-referenced Authorization header
and a mixed-reference custom header. -/
def srvBearerMixed : Server :=
  .http "https://mcp.example.com/v1"
    [("Authorization", "Bearer $\x7bTOK\x7d"), ("X-Mix", "$\x7bA\x7d $\x7bB\x7d")]
    .bearer none none none []

/-- An existing Claude config file: one stale server plus an unrelated key. -/
def fsClaudeStale : FS :=
  [("claude.json",
    .parsed [("mcpServers", .obj [("old", .obj [])]),
             ("someOtherSetting", .bool true)])]

/-- An existing Codex config file whose TOML fails to parse. -/
def fsRawToml : FS := [("config.toml", .raw "not = [valid toml")]

/-- An existing parseable Codex config file with an unrelated key. -/
def fsCodexExisting : FS := [("config.toml", .parsed [("other", .bool true)])]

-- =============================================================================
-- Helper lemmas
-- =============================================================================

theorem alookup_filter_ne (l : List (String × α)) (p q : String) (h : q ≠ p) :
    alookup (List.filter (fun kv => kv.1 != p) l) q = alookup l q := by
  induction l with
  | nil => rfl
  | cons hd tl ih =>
    by_cases hp : hd.1 = p
    · have hb : (hd.1 != p) = false := by simp [hp]
      have hq : ¬ (hd.1 = q) := by rw [hp]; exact Ne.symm h
      simp [List.filter_cons, hb, alookup, hq, ih]
    · have hb : (hd.1 != p) = true := by simp [hp]
      by_cases hq : hd.1 = q
      · simp [List.filter_cons, hb, alookup, hq, h]
      · simp [List.filter_cons, hb, alookup, hq, ih]

theorem alookup_filter_self (l : List (String × α)) (p : String) :
    alookup (List.filter (fun kv => kv.1 != p) l) p = none := by
  induction l with
  | nil => rfl
  | cons hd tl ih =>
    by_cases hp : hd.1 = p
    · have hb : (hd.1 != p) = false := by simp [hp]
      simp [List.filter_cons, hb, ih]
    · have hb : (hd.1 != p) = true := by simp [hp]
      simp [List.filter_cons, hb, alookup, hp, ih]

theorem computeServersGo_notmem (dn an : String) (caps : AgentCapabilities)
    (transform : String → Server → α) (cfg : CanonicalConfig) :
    ∀ (l : List (String × Server)) (acc : List (String × α)) (name : String),
      name ∉ l.map Prod.fst →
      alookup (computeServersGo dn an caps transform cfg l acc) name
        = alookup acc name := by
  intro l
  induction l with
  | nil => intro acc name _; rfl
  | cons hd tl ih =>
    intro acc name h
    obtain ⟨n, s⟩ := hd
    simp only [List.map_cons, List.mem_cons, not_or] at h
    obtain ⟨h1, h2⟩ := h
    simp only [computeServersGo]
    by_cases hinc : shouldIncludeServer an n s cfg
    · by_cases herr : writeHasError dn an caps cfg n s
      · simp [hinc, herr, ih _ _ h2]
      · simp [hinc, herr, ih _ _ h2,
          alookup_putKey_ne _ _ _ _ (Ne.symm (fun hh => h1 hh.symm))]
    · simp [hinc, ih _ _ h2]

theorem computeServersGo_alookup (dn an : String) (caps : AgentCapabilities)
    (transform : String → Server → α) (cfg : CanonicalConfig) :
    ∀ (l : List (String × Server)) (acc : List (String × α))
      (name : String) (server : Server),
      (name, server) ∈ l → (l.map Prod.fst).Nodup →
      alookup (computeServersGo dn an caps transform cfg l acc) name
        = if shouldIncludeServer an name server cfg
              && !writeHasError dn an caps cfg name server
          then some (transform name server)
          else alookup acc name := by
  intro l
  induction l with
  | nil => intro acc name server hmem _; exact absurd hmem (List.not_mem_nil _)
  | cons hd tl ih =>
    intro acc name server hmem hnodup
    obtain ⟨n, s⟩ := hd
    rw [List.map_cons, List.nodup_cons] at hnodup
    obtain ⟨hn1, hn2⟩ := hnodup
    rcases List.mem_cons.mp hmem with heq | hmem'
    · have hname : name = n := congrArg Prod.fst heq
      have hserver : server = s := congrArg Prod.snd heq
      subst hname; subst hserver
      have hnotmem : name ∉ tl.map Prod.fst := hn1
      simp only [computeServersGo]
      by_cases hinc : shouldIncludeServer an name server cfg
      · by_cases herr : writeHasError dn an caps cfg name server
        · simp [hinc, herr, computeServersGo_notmem dn an caps transform cfg tl acc name hnotmem]
        · simp [hinc, herr,
            computeServersGo_notmem dn an caps transform cfg tl _ name hnotmem,
            alookup_putKey_self]
      · simp [hinc, computeServersGo_notmem dn an caps transform cfg tl acc name hnotmem]
    · have hne : n ≠ name := by
        intro hh
        apply hn1
        rw [hh]
        exact List.mem_map.mpr ⟨(name, server), hmem', rfl⟩
      simp only [computeServersGo]
      by_cases hinc : shouldIncludeServer an n s cfg
      · by_cases herr : writeHasError dn an caps cfg n s
        · simp [hinc, herr, ih _ _ _ hmem' hn2]
        · simp [hinc, herr, ih _ _ _ hmem' hn2,
            alookup_putKey_ne _ _ _ _ (Ne.symm hne)]
      · simp [hinc, ih _ _ _ hmem' hn2]

theorem computeServersGo_all_skip (dn an : String) (caps : AgentCapabilities)
    (transform : String → Server → α) (cfg : CanonicalConfig) :
    ∀ (l : List (String × Server)) (acc : List (String × α)),
      (∀ p ∈ l, shouldIncludeServer an p.1 p.2 cfg = false) →
      computeServersGo dn an caps transform cfg l acc = acc := by
  intro l
  induction l with
  | nil => intro acc _; rfl
  | cons hd tl ih =>
    intro acc h
    obtain ⟨n, s⟩ := hd
    have h1 : shouldIncludeServer an n s cfg = false := h (n, s) (List.mem_cons_self _ _)
    simp only [computeServersGo, h1]
    simp only [Bool.false_eq_true, if_false]
    exact ih acc fun p hp => h p (List.mem_cons_of_mem _ hp)

theorem mem_foldr_append {f : β → List γ} :
    ∀ (l : List β) (p : β), p ∈ l → ∀ i, i ∈ f p →
      i ∈ l.foldr (fun x acc => f x ++ acc) [] := by
  intro l
  induction l with
  | nil => intro p hp; exact absurd hp (List.not_mem_nil _)
  | cons hd tl ih =>
    intro p hp i hi
    rcases List.mem_cons.mp hp with rfl | hp'
    · exact List.mem_append_left _ hi
    · exact List.mem_append_right _ (ih p hp' i hi)

theorem validateServer_http_error (dn an : String) (caps : AgentCapabilities)
    (cfg : CanonicalConfig) (name : String) (server : Server)
    (hhttp : server.isHttp = true) (hcap : caps.supportsHttp = false) :
    httpErrorIssue dn name ∈ validateServer dn an caps cfg name server := by
  apply List.mem_append_left
  apply List.mem_append_left
  apply List.mem_append_left
  apply List.mem_append_left
  simp [hhttp, hcap, httpErrorIssue]

theorem validate_http_error_mem (dn an : String) (caps : AgentCapabilities)
    (cfg : CanonicalConfig) (name : String) (server : Server)
    (hmem : (name, server) ∈ cfg.servers)
    (hhttp : server.isHttp = true) (hcap : caps.supportsHttp = false) :
    ∃ i ∈ (validate dn an caps cfg).issues,
      i.type = IssueType.error ∧ i.server = some name := by
  refine ⟨httpErrorIssue dn name, ?_, rfl, rfl⟩
  exact mem_foldr_append cfg.servers (name, server) hmem _
    (validateServer_http_error dn an caps cfg name server hhttp hcap)

theorem writeHasError_of_http (dn an : String) (caps : AgentCapabilities)
    (cfg : CanonicalConfig) (name : String) (server : Server)
    (hhttp : server.isHttp = true) (hcap : caps.supportsHttp = false) :
    writeHasError dn an caps cfg name server = true := by
  have hmem : (name, server) ∈ (singleServer cfg name server).servers :=
    List.mem_singleton.mpr rfl
  have h := validateServer_http_error dn an caps (singleServer cfg name server)
    name server hhttp hcap
  have h2 : httpErrorIssue dn name
      ∈ validateIssues dn an caps (singleServer cfg name server) :=
    mem_foldr_append _ _ hmem _ h
  have h3 : httpErrorIssue dn name
      ∈ (validate dn an caps (singleServer cfg name server)).issues := h2
  simp only [writeHasError, List.any_eq_true]
  exact ⟨httpErrorIssue dn name, h3, rfl⟩

theorem shouldIncludeServer_eq_false_of_exclusion (an name : String)
    (server : Server) (cfg : CanonicalConfig)
    (h : ∃ e ∈ cfg.exclusions, e.server = name ∧ e.agent = an) :
    shouldIncludeServer an name server cfg = false := by
  obtain ⟨e, he, h1, h2⟩ := h
  have : cfg.exclusions.any (fun e => e.server == name && e.agent == an) = true :=
    List.any_eq_true.mpr ⟨e, he, by simp [h1, h2]⟩
  simp [shouldIncludeServer, this]

theorem shouldIncludeServer_eq_false_of_override (an name : String)
    (server : Server) (cfg : CanonicalConfig) (o : AgentOverride)
    (ho : alookup server.agentsOf an = some o) (he : o.enabled = some false) :
    shouldIncludeServer an name server cfg = false := by
  by_cases hx : cfg.exclusions.any (fun e => e.server == name && e.agent == an)
  · simp [shouldIncludeServer, hx]
  · simp [shouldIncludeServer, hx, ho, he]

theorem fsLookup_fsWrite_self (fs : FS) (p : String) (c : Content) :
    fsLookup (fsWrite fs p c) p = some c := alookup_putKey_self fs p c

theorem fsLookup_fsWrite_ne (fs : FS) (p q : String) (c : Content) (h : q ≠ p) :
    fsLookup (fsWrite fs p c) q = fsLookup fs q := alookup_putKey_ne fs p q c h

theorem fsLookup_fsRemove_self (fs : FS) (p : String) :
    fsLookup (fsRemove fs p) p = none := alookup_filter_self fs p

theorem fsLookup_fsRemove_ne (fs : FS) (p q : String) (h : q ≠ p) :
    fsLookup (fsRemove fs p) q = fsLookup fs q := alookup_filter_ne fs p q h

theorem fsLookup_fsCopy_ne (fs : FS) (src dst q : String) (h : q ≠ dst) :
    fsLookup (fsCopy fs src dst) q = fsLookup fs q := by
  unfold fsCopy
  cases hs : fsLookup fs src with
  | none => rfl
  | some c => exact alookup_putKey_ne fs dst q c h

theorem fsLookup_fsCopy_dst (fs : FS) (src dst : String) (c : Content)
    (h : fsLookup fs src = some c) :
    fsLookup (fsCopy fs src dst) dst = some c := by
  unfold fsCopy
  rw [h]
  exact alookup_putKey_self fs dst c

theorem bakPath_ne (path : String) : bakPath path ≠ path := by
  intro h
  have h1 : (bakPath path).length = path.length + 4 := by
    simp [bakPath, String.length_append]
    decide
  rw [h] at h1
  omega

theorem tempPath_ne (path : String) (pid : Nat) : tempPath path pid ≠ path := by
  intro h
  have h1 : (tempPath path pid).length
      = path.length + 5 + (toString pid).length := by
    simp [tempPath, String.length_append]
    decide
  rw [h] at h1
  omega

theorem bakPath_ne_tempPath (path : String) (pid : Nat) :
    bakPath path ≠ tempPath path pid := by
  intro h
  have h1 : (bakPath path).length = path.length + 4 := by
    simp [bakPath, String.length_append]
    decide
  have h2 : (tempPath path pid).length
      = path.length + 5 + (toString pid).length := by
    simp [tempPath, String.length_append]
    decide
  rw [h, h2] at h1
  omega

/-- On success, the target of `atomicWrite` holds the new content. -/
theorem atomicWrite_ok_target (path : String) (c : Content) (b : Bool)
    (pid : Nat) (fs : FS) :
    fsLookup (atomicWrite path c b pid false fs).fs path = some c := by
  unfold atomicWrite
  simp only [Bool.false_eq_true, if_false]
  have h1 : fsLookup (fsWrite (if b && fsExists fs path
      then fsCopy fs path (bakPath path) else fs) (tempPath path pid) c)
      (tempPath path pid) = some c := fsLookup_fsWrite_self _ _ _
  simp only [fsRename, h1]
  exact fsLookup_fsWrite_self _ _ _

/-- On success, the temp file is gone: the rename removed it. -/
theorem atomicWrite_ok_temp (path : String) (c : Content) (b : Bool)
    (pid : Nat) (fs : FS) :
    fsLookup (atomicWrite path c b pid false fs).fs (tempPath path pid) = none := by
  unfold atomicWrite
  simp only [Bool.false_eq_true, if_false]
  have h1 : fsLookup (fsWrite (if b && fsExists fs path
      then fsCopy fs path (bakPath path) else fs) (tempPath path pid) c)
      (tempPath path pid) = some c := fsLookup_fsWrite_self _ _ _
  simp only [fsRename, h1]
  simp only [fsLookup]
  rw [alookup_putKey_ne _ _ _ _ (tempPath_ne path pid)]
  simp only [fsRemove]
  exact alookup_filter_self _ _

/-- When the target pre-exists and backup is on, `<path>.bak` receives the
old target content. -/
theorem atomicWrite_ok_backup (path : String) (c old : Content) (pid : Nat)
    (fs : FS) (h : fsLookup fs path = some old) :
    fsLookup (atomicWrite path c true pid false fs).fs (bakPath path) = some old := by
  unfold atomicWrite
  have hex : fsExists fs path = true := by simp [fsExists, h]
  simp only [hex, Bool.and_self, if_true, Bool.false_eq_true, if_false, Bool.true_and]
  have h1 : fsLookup (fsWrite (fsCopy fs path (bakPath path)) (tempPath path pid) c)
      (tempPath path pid) = some c := fsLookup_fsWrite_self _ _ _
  simp only [fsRename, h1]
  simp only [fsLookup]
  rw [alookup_putKey_ne _ _ _ _ (bakPath_ne path)]
  simp only [fsRemove]
  rw [alookup_filter_ne _ _ _ (bakPath_ne_tempPath path pid)]
  simp only [fsWrite]
  rw [alookup_putKey_ne _ _ _ _ (bakPath_ne_tempPath path pid)]
  exact fsLookup_fsCopy_dst fs path (bakPath path) old h

/-- Paths other than the target, its backup and the temp file are untouched
by a successful `atomicWrite`. -/
theorem atomicWrite_ok_frame (path : String) (c : Content) (b : Bool)
    (pid : Nat) (fs : FS) (q : String) (hq1 : q ≠ path)
    (hq2 : q ≠ bakPath path) (hq3 : q ≠ tempPath path pid) :
    fsLookup (atomicWrite path c b pid false fs).fs q = fsLookup fs q := by
  unfold atomicWrite
  simp only [Bool.false_eq_true, if_false]
  have h1 : fsLookup (fsWrite (if b && fsExists fs path
      then fsCopy fs path (bakPath path) else fs) (tempPath path pid) c)
      (tempPath path pid) = some c := fsLookup_fsWrite_self _ _ _
  simp only [fsRename, h1]
  simp only [fsLookup]
  rw [alookup_putKey_ne _ _ _ _ hq1]
  simp only [fsRemove]
  rw [alookup_filter_ne _ _ _ hq3]
  simp only [fsWrite]
  rw [alookup_putKey_ne _ _ _ _ hq3]
  by_cases hb : b && fsExists fs path
  · simp only [hb, if_true]
    exact fsLookup_fsCopy_ne _ _ _ _ hq2
  · simp [hb]

/-- On success the trace mutates the target exactly once, by the rename. -/
theorem atomicWrite_ok_ops (path : String) (c : Content) (b : Bool)
    (pid : Nat) (fs : FS) :
    ((atomicWrite path c b pid false fs).ops.filter (opTouches path))
      = [.rename (tempPath path pid) path] := by
  unfold atomicWrite
  simp only [Bool.false_eq_true, if_false]
  by_cases hb : b && fsExists fs path
  · simp only [hb, if_true]
    have h1 : opTouches path (.copy path (bakPath path)) = false := by
      simp [opTouches, bakPath_ne path]
    have h2 : opTouches path (.write (tempPath path pid) c) = false := by
      simp [opTouches, tempPath_ne path pid]
    have h3 : opTouches path (.rename (tempPath path pid) path) = true := by
      simp [opTouches]
    simp [List.filter_cons, h1, h2, h3]
  · simp only [hb, if_false]
    have h2 : opTouches path (.write (tempPath path pid) c) = false := by
      simp [opTouches, tempPath_ne path pid]
    have h3 : opTouches path (.rename (tempPath path pid) path) = true := by
      simp [opTouches]
    simp [List.filter_cons, h2, h3]

theorem atomicWrite_ok_ok (path : String) (c : Content) (b : Bool)
    (pid : Nat) (fs : FS) : (atomicWrite path c b pid false fs).ok = true := by
  unfold atomicWrite
  simp

/-- On a write-step failure, the target is unchanged, the temp file is
removed, and the result is marked failed. -/
theorem atomicWrite_fail (path : String) (c : Content) (b : Bool)
    (pid : Nat) (fs : FS) :
    fsLookup (atomicWrite path c b pid true fs).fs path = fsLookup fs path
    ∧ fsLookup (atomicWrite path c b pid true fs).fs (tempPath path pid) = none
    ∧ (atomicWrite path c b pid true fs).ok = false := by
  refine ⟨?_, ?_, ?_⟩
  · unfold atomicWrite
    simp only [if_true]
    rw [fsLookup_fsRemove_ne _ _ _ (Ne.symm (tempPath_ne path pid))]
    by_cases hb : b && fsExists fs path
    · simp only [hb, if_true]
      exact fsLookup_fsCopy_ne _ _ _ _ (Ne.symm (bakPath_ne path))
    · simp [hb]
  · unfold atomicWrite
    simp only [if_true]
    exact fsLookup_fsRemove_self _ _
  · unfold atomicWrite
    simp only [if_true]

-- =============================================================================
-- Claim theorems
-- =============================================================================

/-- C3: for every agent (display name, agent name, capability table) and
every canonical registry, `validate` reports `valid = false` exactly when
some issue has type error; an HTTP server on an agent with
`supportsHttp = false` always receives an error-type issue naming it and is
omitted from the emitted native server set of the write loop, while an
included server whose single-server validation produced no error (warnings
only or none) is emitted. -/
theorem C3_validation_gating (dn an : String) (caps : AgentCapabilities)
    (cfg : CanonicalConfig) (transform : String → Server → α) :
    ((validate dn an caps cfg).valid = false ↔
      ∃ i ∈ (validate dn an caps cfg).issues, i.type = IssueType.error)
    ∧ (∀ name server, (name, server) ∈ cfg.servers → server.isHttp = true →
        caps.supportsHttp = false →
        ∃ i ∈ (validate dn an caps cfg).issues,
          i.type = IssueType.error ∧ i.server = some name)
    ∧ (∀ name server, (name, server) ∈ cfg.servers →
        (cfg.servers.map Prod.fst).Nodup → server.isHttp = true →
        caps.supportsHttp = false →
        alookup (computeServers dn an caps transform cfg) name = none)
    ∧ (∀ name server, (name, server) ∈ cfg.servers →
        (cfg.servers.map Prod.fst).Nodup →
        shouldIncludeServer an name server cfg = true →
        writeHasError dn an caps cfg name server = false →
        alookup (computeServers dn an caps transform cfg) name
          = some (transform name server)) := by
  refine ⟨?_, ?_, ?_, ?_⟩
  · have : (validate dn an caps cfg).valid
        = !(validateIssues dn an caps cfg).any (fun i => i.type == IssueType.error) := rfl
    rw [this]
    simp [List.any_eq_true]
    rfl
  · intro name server hmem hhttp hcap
    exact validate_http_error_mem dn an caps cfg name server hmem hhttp hcap
  · intro name server hmem hnodup hhttp hcap
    have herr := writeHasError_of_http dn an caps cfg name server hhttp hcap
    have h := computeServersGo_alookup dn an caps transform cfg cfg.servers []
      name server hmem hnodup
    simp [computeServers, h, herr, alookup]
  · intro name server hmem hnodup hinc herr
    have h := computeServersGo_alookup dn an caps transform cfg cfg.servers []
      name server hmem hnodup
    simp [computeServers, h, hinc, herr]

/-- C3 witness: a concrete HTTP server on an HTTP-incapable capability table
receives an error issue and is dropped, while an OAuth server on OpenCode
(warning only) is still emitted. -/
theorem C3_validation_gating_witness :
    (∃ i ∈ (validate "Stub" "stub" capsNoHttp cfgHttp).issues,
      i.type = IssueType.error ∧ i.server = some "h")
    ∧ alookup (computeServers "Stub" "stub" capsNoHttp
        (fun _ _ => (0 : Nat)) cfgHttp) "h" = none
    ∧ alookup (computeServers "OpenCode" "opencode" opencodeCaps
        (fun _ _ => (0 : Nat)) cfgWarn) "w" = some 0 := by
  refine ⟨?_, ?_, ?_⟩
  · exact (C3_validation_gating "Stub" "stub" capsNoHttp cfgHttp
      (fun _ _ => (0 : Nat))).2.1 "h" srvHttp (by decide) (by decide) (by decide)
  · exact (C3_validation_gating "Stub" "stub" capsNoHttp cfgHttp
      (fun _ _ => (0 : Nat))).2.2.1 "h" srvHttp (by decide) (by decide)
      (by decide) (by decide)
  · exact (C3_validation_gating "OpenCode" "opencode" opencodeCaps cfgWarn
      (fun _ _ => (0 : Nat))).2.2.2 "w" srvOauth (by decide) (by decide)
      (by decide) (by decide)

/-- C5: the claim's expected Claude output omits the `type` field the
transform always adds; the amended exact output (the counterexample records
the mismatch). -/
theorem C5_claude_stdio_emission :
    (∀ env, transformEnv env = env)
    ∧ alookup (claudeComputeServers cfgNode) "srv"
      = some (.obj [("type", .str "stdio"), ("command", .str "node"),
          ("args", .arr [.str "server.js"]),
          ("env", .obj [("API_KEY", .str "$\x7bAPI_KEY\x7d")])]) := by
  constructor
  · intro env
    show env.map (fun kv => (kv.1, kv.2)) = env
    simp
  · rfl

/-- C5 counterexample: the emitted Claude server object is not exactly
`\x7bcommand, args, env\x7d` — it additionally carries `type: "stdio"`. -/
theorem C5_type_field_counterexample :
    alookup (claudeComputeServers cfgNode) "srv"
      = some (claudeTransformServer srvNode)
    ∧ claudeTransformServer srvNode
      ≠ .obj [("command", .str "node"), ("args", .arr [.str "server.js"]),
              ("env", .obj [("API_KEY", .str "$\x7bAPI_KEY\x7d")])] := by
  refine ⟨rfl, fun h => ?_⟩
  exact absurd (congrArg objKeys h) (by decide)

theorem codexSplitGo_auth :
    ∀ (hs : List (String × String))
      (acc : List (String × String) × List (String × String)),
      alookup acc.1 "Authorization" = none →
      alookup acc.2 "Authorization" = none →
      alookup (hs.foldl (codexHeaderStep true) acc).1 "Authorization" = none
      ∧ alookup (hs.foldl (codexHeaderStep true) acc).2 "Authorization" = none := by
  intro hs
  induction hs with
  | nil => intro acc h1 h2; exact ⟨h1, h2⟩
  | cons hd tl ih =>
    intro acc h1 h2
    obtain ⟨n, w⟩ := hd
    by_cases hn : n = "Authorization"
    · have : codexHeaderStep true acc (n, w) = acc := by
        simp [codexHeaderStep, hn]
      simp only [List.foldl_cons, this]
      exact ih acc h1 h2
    · simp only [List.foldl_cons]
      apply ih
      · by_cases hshape : startsWithDollarBrace w && endsWithBrace w
        · simp [codexHeaderStep, hn, hshape, h1]
        · simp [codexHeaderStep, hn, hshape,
            alookup_putKey_ne _ _ _ _ (Ne.symm hn), h1]
      · by_cases hshape : startsWithDollarBrace w && endsWithBrace w
        · simp [codexHeaderStep, hn, hshape,
            alookup_putKey_ne _ _ _ _ (Ne.symm hn), h2]
        · simp [codexHeaderStep, hn, hshape, h2]

theorem codexSplitGo_notmem (b : Bool) :
    ∀ (hs : List (String × String))
      (acc : List (String × String) × List (String × String)) (k : String),
      k ∉ hs.map Prod.fst →
      alookup (hs.foldl (codexHeaderStep b) acc).1 k = alookup acc.1 k
      ∧ alookup (hs.foldl (codexHeaderStep b) acc).2 k = alookup acc.2 k := by
  intro hs
  induction hs with
  | nil => intro acc k _; exact ⟨rfl, rfl⟩
  | cons hd tl ih =>
    intro acc k h
    obtain ⟨n, w⟩ := hd
    simp only [List.map_cons, List.mem_cons, not_or] at h
    obtain ⟨h1, h2⟩ := h
    simp only [List.foldl_cons]
    have step := ih (codexHeaderStep b acc (n, w)) k h2
    refine ⟨step.1.trans ?_, step.2.trans ?_⟩
    · by_cases hskip : n = "Authorization" ∧ b = true
      · simp [codexHeaderStep, hskip]
      · by_cases hshape : startsWithDollarBrace w && endsWithBrace w
        · simp [codexHeaderStep, hskip, hshape]
        · simp [codexHeaderStep, hskip, hshape,
            alookup_putKey_ne _ _ _ _ (Ne.symm (fun hh => h1 hh.symm))]
    · by_cases hskip : n = "Authorization" ∧ b = true
      · simp [codexHeaderStep, hskip]
      · by_cases hshape : startsWithDollarBrace w && endsWithBrace w
        · simp [codexHeaderStep, hskip, hshape,
            alookup_putKey_ne _ _ _ _ (Ne.symm (fun hh => h1 hh.symm))]
        · simp [codexHeaderStep, hskip, hshape]

theorem codexSplitGo_mem (b : Bool) :
    ∀ (hs : List (String × String))
      (acc : List (String × String) × List (String × String)) (k v : String),
      (k, v) ∈ hs → (hs.map Prod.fst).Nodup →
      ¬(k = "Authorization" ∧ b = true) →
      ((startsWithDollarBrace v && endsWithBrace v) = true →
        alookup (hs.foldl (codexHeaderStep b) acc).2 k = some (innerName v)
        ∧ alookup (hs.foldl (codexHeaderStep b) acc).1 k = alookup acc.1 k)
      ∧ ((startsWithDollarBrace v && endsWithBrace v) = false →
        alookup (hs.foldl (codexHeaderStep b) acc).1 k = some v
        ∧ alookup (hs.foldl (codexHeaderStep b) acc).2 k = alookup acc.2 k) := by
  intro hs
  induction hs with
  | nil => intro acc k v hmem _ _; exact absurd hmem (List.not_mem_nil _)
  | cons hd tl ih =>
    intro acc k v hmem hnodup hna
    obtain ⟨n, w⟩ := hd
    rw [List.map_cons, List.nodup_cons] at hnodup
    obtain ⟨hn1, hn2⟩ := hnodup
    rcases List.mem_cons.mp hmem with heq | hmem'
    · have hk : k = n := congrArg Prod.fst heq
      have hv : v = w := congrArg Prod.snd heq
      subst hk; subst hv
      have hnot : k ∉ tl.map Prod.fst := hn1
      have htl := codexSplitGo_notmem b tl (codexHeaderStep b acc (k, v)) k hnot
      constructor
      · intro hshape
        constructor
        · rw [List.foldl_cons, htl.2]
          simp [codexHeaderStep, hna, hshape, alookup_putKey_self]
        · rw [List.foldl_cons, htl.1]
          simp [codexHeaderStep, hna, hshape]
      · intro hshape
        constructor
        · rw [List.foldl_cons, htl.1]
          simp [codexHeaderStep, hna, hshape, alookup_putKey_self]
        · rw [List.foldl_cons, htl.2]
          simp [codexHeaderStep, hna, hshape]
    · have hne : n ≠ k := by
        intro hh
        apply hn1
        rw [hh]
        exact List.mem_map.mpr ⟨(k, v), hmem', rfl⟩
      have step := ih (codexHeaderStep b acc (n, w)) k v hmem' hn2 hna
      have hacc1 : alookup (codexHeaderStep b acc (n, w)).1 k = alookup acc.1 k := by
        by_cases hskip : n = "Authorization" ∧ b = true
        · simp [codexHeaderStep, hskip]
        · by_cases hshape : startsWithDollarBrace w && endsWithBrace w
          · simp [codexHeaderStep, hskip, hshape]
          · simp [codexHeaderStep, hskip, hshape,
              alookup_putKey_ne _ _ _ _ (Ne.symm hne)]
      have hacc2 : alookup (codexHeaderStep b acc (n, w)).2 k = alookup acc.2 k := by
        by_cases hskip : n = "Authorization" ∧ b = true
        · simp [codexHeaderStep, hskip]
        · by_cases hshape : startsWithDollarBrace w && endsWithBrace w
          · simp [codexHeaderStep, hskip, hshape,
              alookup_putKey_ne _ _ _ _ (Ne.symm hne)]
          · simp [codexHeaderStep, hskip, hshape]
      rw [List.foldl_cons]
      refine ⟨fun hshape => ?_, fun hshape => ?_⟩
      · exact ⟨(step.1 hshape).1, ((step.1 hshape).2).trans hacc1⟩
      · exact ⟨(step.2 hshape).1, ((step.2 hshape).2).trans hacc2⟩

theorem takeBeforeColonDash_all :
    ∀ (l : List Char), (∀ c ∈ l, c ≠ ':') → takeBeforeColonDash l = l
  | [], _ => rfl
  | [_], _ => rfl
  | c :: d :: rest, h => by
    have hc : c ≠ ':' := h c (by simp)
    have hcond : ¬(c = ':' ∧ d = '-') := fun hh => hc hh.1
    simp only [takeBeforeColonDash, if_neg hcond]
    rw [takeBeforeColonDash_all (d :: rest) (fun x hx => h x (by simp [hx]))]

theorem bearerNameChar_ne_colon (c : Char) (h : bearerNameChar c = true) :
    c ≠ ':' := by
  intro hc
  subst hc
  simp [bearerNameChar] at h

/-- C6 amended: for a bearer-auth HTTP server, an env-reference match in the
Authorization header lands its variable name in `bearer_token_env_var` and
the Authorization header is omitted from both header maps; every other
header is routed by whether its value starts with `$\x7b` and ends with
`\x7d` — such values go to `env_http_headers` carrying the inner text up to
the first `:-` (for a pure single `$\x7bVAR\x7d` reference, exactly the
variable name), all remaining values go to `http_headers` verbatim.  (The
claim's pure-reference routing is refuted by the counterexample: a mixed
value such as `$\x7bA\x7d $\x7bB\x7d` is also sent to `env_http_headers`.) -/
theorem C6_codex_bearer_headers (headers : List (String × String)) (b : Bool)
    (hnodup : (headers.map Prod.fst).Nodup) :
    (∀ a nm, alookup headers "Authorization" = some a →
      findBearerVar a.toList = some nm →
      codexBearerVar .bearer headers = some nm.asString)
    ∧ (alookup (codexSplitHeaders true headers).1 "Authorization" = none
      ∧ alookup (codexSplitHeaders true headers).2 "Authorization" = none)
    ∧ (∀ k v, (k, v) ∈ headers → ¬(k = "Authorization" ∧ b = true) →
      ((startsWithDollarBrace v && endsWithBrace v) = true →
        alookup (codexSplitHeaders b headers).2 k = some (innerName v)
        ∧ alookup (codexSplitHeaders b headers).1 k = none)
      ∧ ((startsWithDollarBrace v && endsWithBrace v) = false →
        alookup (codexSplitHeaders b headers).1 k = some v
        ∧ alookup (codexSplitHeaders b headers).2 k = none))
    ∧ (∀ (name : List Char) (v : String), name ≠ [] →
      (∀ c ∈ name, bearerNameChar c = true) →
      v.toList = '$' :: '\x7b' :: (name ++ ['\x7d']) →
      innerName v = name.asString) := by
  refine ⟨?_, ?_, ?_, ?_⟩
  · intro a nm ha hf
    have hf' : findBearerVar a.data = some nm := hf
    simp [codexBearerVar, ha, hf']
  · exact codexSplitGo_auth headers ([], []) rfl rfl
  · intro k v hmem hna
    exact codexSplitGo_mem b headers ([], []) k v hmem hnodup hna
  · intro name v hne hchars hv
    unfold innerName
    rw [hv]
    simp only [List.drop_succ_cons, List.drop_zero]
    rw [List.dropLast_concat]
    rw [takeBeforeColonDash_all name
      (fun c hc => bearerNameChar_ne_colon c (hchars c hc))]

/-- C6 counterexample: with bearer auth, the non-pure header value
`$\x7bA\x7d $\x7bB\x7d` (two references and a space, not one pure reference)
is routed to `env_http_headers` with the mangled inner text `A\x7d $\x7bB`
instead of going to `http_headers` verbatim. -/
theorem C6_mixed_header_counterexample :
    codexBearerVar .bearer
      [("Authorization", "Bearer $\x7bTOK\x7d"), ("X-Mix", "$\x7bA\x7d $\x7bB\x7d")]
      = some "TOK"
    ∧ codexSplitHeaders true
      [("Authorization", "Bearer $\x7bTOK\x7d"), ("X-Mix", "$\x7bA\x7d $\x7bB\x7d")]
      = ([], [("X-Mix", "A\x7d $\x7bB")])
    ∧ objGet (codexTransformServer cfgEmpty srvBearerMixed) "http_headers" = none
    ∧ objGet (codexTransformServer cfgEmpty srvBearerMixed) "env_http_headers"
      = some (.obj [("X-Mix", .str "A\x7d $\x7bB")]) :=
  ⟨rfl, rfl, rfl, rfl⟩

/-- C6 witness: concrete bearer extraction and header split. -/
theorem C6_codex_bearer_headers_witness :
    codexBearerVar .bearer
      [("Authorization", "Bearer $\x7bTOK\x7d"), ("X-Api", "$\x7bKEY\x7d"),
       ("Accept", "application/json")] = some "TOK"
    ∧ alookup (codexSplitHeaders true
      [("Authorization", "Bearer $\x7bTOK\x7d"), ("X-Api", "$\x7bKEY\x7d"),
       ("Accept", "application/json")]).1 "Authorization" = none
    ∧ alookup (codexSplitHeaders true
      [("Authorization", "Bearer $\x7bTOK\x7d"), ("X-Api", "$\x7bKEY\x7d"),
       ("Accept", "application/json")]).2 "X-Api" = some (innerName "$\x7bKEY\x7d")
    ∧ alookup (codexSplitHeaders true
      [("Authorization", "Bearer $\x7bTOK\x7d"), ("X-Api", "$\x7bKEY\x7d"),
       ("Accept", "application/json")]).1 "Accept" = some "application/json"
    ∧ innerName "$\x7bKEY\x7d" = "KEY" := by
  have h := C6_codex_bearer_headers
    [("Authorization", "Bearer $\x7bTOK\x7d"), ("X-Api", "$\x7bKEY\x7d"),
     ("Accept", "application/json")] true (by decide)
  refine ⟨h.1 "Bearer $\x7bTOK\x7d" ['T', 'O', 'K'] rfl (by decide),
    h.2.1.1, ?_, ?_, ?_⟩
  · exact ((h.2.2.1 "X-Api" "$\x7bKEY\x7d" (by decide) (by decide)).1 (by decide)).1
  · exact ((h.2.2.1 "Accept" "application/json" (by decide) (by decide)).2 (by decide)).1
  · exact h.2.2.2 ['K', 'E', 'Y'] "$\x7bKEY\x7d" (by decide) (by decide) rfl

theorem isBareChar_ne (c : Char) (h : isBareChar c = true) :
    c ≠ '$' ∧ c ≠ '-' ∧ c ≠ ':' ∧ c ≠ '\x7d' ∧ c ≠ '\x7b' := by
  refine ⟨?_, ?_, ?_, ?_, ?_⟩ <;> (intro hc; subst hc; exact absurd h (by decide))

theorem matchDefault_ne_dollar (c : Char) (l : List Char) (h : c ≠ '$') :
    matchDefault (c :: l) = none := by
  cases l with
  | nil => rfl
  | cons d rest => simp [matchDefault, h]

theorem matchBraced_ne_dollar (c : Char) (l : List Char) (h : c ≠ '$') :
    matchBraced (c :: l) = none := by
  cases l with
  | nil => rfl
  | cons d rest => simp [matchBraced, h]

theorem matchBare_ne_dollar (c : Char) (l : List Char) (h : c ≠ '$') :
    matchBare (c :: l) = none := by
  cases l with
  | nil => rfl
  | cons d rest => simp [matchBare, h]

theorem passF_nil (m : List Char → Option (List Char × List Char))
    (wrap : List Char → List Char) (fuel : Nat) : passF m wrap fuel [] = [] := by
  cases fuel <;> rfl

theorem passF_id_of_no_dollar (m : List Char → Option (List Char × List Char))
    (wrap : List Char → List Char)
    (hm : ∀ c l, c ≠ '$' → m (c :: l) = none) :
    ∀ (fuel : Nat) (l : List Char), '$' ∉ l → passF m wrap fuel l = l := by
  intro fuel
  induction fuel with
  | zero => intro l _; rfl
  | succ n ih =>
    intro l h
    cases l with
    | nil => rfl
    | cons c rest =>
      simp only [List.mem_cons, not_or] at h
      obtain ⟨h1, h2⟩ := h
      have hc := hm c rest (fun hh => h1 hh.symm)
      simp only [passF, hc]
      rw [ih rest h2]

theorem containsDefault_eq_false_of_no_dollar :
    ∀ (l : List Char), '$' ∉ l → containsDefault l = false := by
  intro l
  induction l with
  | nil => intro _; rfl
  | cons c rest ih =>
    intro h
    simp only [List.mem_cons, not_or] at h
    obtain ⟨h1, h2⟩ := h
    simp [containsDefault, matchDefault_ne_dollar c rest (fun hh => h1 hh.symm),
      ih h2]

theorem passF_head_fix (m : List Char → Option (List Char × List Char))
    (wrap : List Char → List Char)
    (hm : ∀ c l, c ≠ '$' → m (c :: l) = none)
    (c : Char) (t : List Char) (hhead : m (c :: t) = none) (ht : '$' ∉ t) :
    ∀ fuel, passF m wrap fuel (c :: t) = c :: t := by
  intro fuel
  cases fuel with
  | zero => rfl
  | succ n =>
    simp only [passF, hhead]
    rw [passF_id_of_no_dollar m wrap hm n t ht]

theorem runPass_head_fix (m : List Char → Option (List Char × List Char))
    (wrap : List Char → List Char)
    (hm : ∀ c l, c ≠ '$' → m (c :: l) = none)
    (c : Char) (t : List Char) (hhead : m (c :: t) = none) (ht : '$' ∉ t) :
    runPass m wrap (c :: t) = c :: t :=
  passF_head_fix m wrap hm c t hhead ht ((c :: t).length)

theorem rooWrap_tail_no_dollar (v : List Char)
    (hv : ∀ c ∈ v, isBareChar c = true) :
    '$' ∉ ('\x7b' :: 'e' :: 'n' :: 'v' :: ':' :: (v ++ ['\x7d'])) := by
  intro h
  simp only [List.mem_cons, List.mem_append, List.mem_singleton] at h
  rcases h with h | h | h | h | h | h | h
  · exact absurd h (by decide)
  · exact absurd h (by decide)
  · exact absurd h (by decide)
  · exact absurd h (by decide)
  · exact absurd h (by decide)
  · exact absurd (hv '$' h) (by decide)
  · exact absurd h (by decide)

theorem openWrap_no_dollar (v : List Char)
    (hv : ∀ c ∈ v, isBareChar c = true) : '$' ∉ openWrap v := by
  intro h
  simp only [openWrap, List.mem_cons, List.mem_append, List.mem_singleton] at h
  rcases h with h | h | h | h | h | h | h
  · exact absurd h (by decide)
  · exact absurd h (by decide)
  · exact absurd h (by decide)
  · exact absurd h (by decide)
  · exact absurd h (by decide)
  · exact absurd (hv '$' h) (by decide)
  · exact absurd h (by decide)

theorem matchDefault_rooWrap_none (v : List Char)
    (hv : ∀ c ∈ v, isBareChar c = true) : matchDefault (rooWrap v) = none := by
  cases v with
  | nil => decide
  | cons c v' =>
    have hc : c ≠ '-' := (isBareChar_ne c (hv c (List.mem_cons_self _ _))).2.1
    show matchDefault
      ('$' :: '\x7b' :: 'e' :: 'n' :: 'v' :: ':' :: ((c :: v') ++ ['\x7d'])) = none
    rw [List.cons_append]
    have h1 : List.takeWhile nameChar
        ('e' :: 'n' :: 'v' :: ':' :: (c :: (v' ++ ['\x7d']))) = ['e', 'n', 'v'] := rfl
    have h2 : List.dropWhile nameChar
        ('e' :: 'n' :: 'v' :: ':' :: (c :: (v' ++ ['\x7d'])))
        = ':' :: (c :: (v' ++ ['\x7d'])) := rfl
    simp [matchDefault, h1, h2, hc]

theorem containsDefault_rooWrap (v : List Char)
    (hv : ∀ c ∈ v, isBareChar c = true) :
    containsDefault (rooWrap v) = false := by
  have hmd : matchDefault
      ('$' :: '\x7b' :: 'e' :: 'n' :: 'v' :: ':' :: (v ++ ['\x7d'])) = none :=
    matchDefault_rooWrap_none v hv
  have htail := rooWrap_tail_no_dollar v hv
  show containsDefault
    ('$' :: '\x7b' :: 'e' :: 'n' :: 'v' :: ':' :: (v ++ ['\x7d'])) = false
  have h1 : containsDefault
      ('$' :: '\x7b' :: 'e' :: 'n' :: 'v' :: ':' :: (v ++ ['\x7d']))
      = ((matchDefault
          ('$' :: '\x7b' :: 'e' :: 'n' :: 'v' :: ':' :: (v ++ ['\x7d']))).isSome
        || containsDefault ('\x7b' :: 'e' :: 'n' :: 'v' :: ':' :: (v ++ ['\x7d']))) :=
    rfl
  rw [h1, hmd, containsDefault_eq_false_of_no_dollar _ htail]
  rfl

theorem rooRewriteList_rooWrap (v : List Char)
    (hv : ∀ c ∈ v, isBareChar c = true) :
    rooRewriteList (rooWrap v) = rooWrap v := by
  have htail := rooWrap_tail_no_dollar v hv
  have hbraced : runPass matchBraced rooWrap (rooWrap v) = rooWrap v :=
    runPass_head_fix matchBraced rooWrap matchBraced_ne_dollar '$'
      ('\x7b' :: 'e' :: 'n' :: 'v' :: ':' :: (v ++ ['\x7d'])) rfl htail
  have hbare : runPass matchBare rooWrap (rooWrap v) = rooWrap v :=
    runPass_head_fix matchBare rooWrap matchBare_ne_dollar '$'
      ('\x7b' :: 'e' :: 'n' :: 'v' :: ':' :: (v ++ ['\x7d'])) rfl htail
  simp only [rooRewriteList, containsDefault_rooWrap v hv, Bool.false_eq_true,
    if_false, hbraced, hbare]

theorem openRewriteList_openWrap (v : List Char)
    (hv : ∀ c ∈ v, isBareChar c = true) :
    openRewriteList (openWrap v) = openWrap v := by
  have hnd := openWrap_no_dollar v hv
  have hcd := containsDefault_eq_false_of_no_dollar _ hnd
  have hbraced : runPass matchBraced openWrap (openWrap v) = openWrap v :=
    passF_id_of_no_dollar matchBraced openWrap matchBraced_ne_dollar _ _ hnd
  have hbare : runPass matchBare openWrap (openWrap v) = openWrap v :=
    passF_id_of_no_dollar matchBare openWrap matchBare_ne_dollar _ _ hnd
  simp only [openRewriteList, hcd, Bool.false_eq_true, if_false, hbraced, hbare]

theorem takeWhile_append_stop (p : Char → Bool) :
    ∀ (xs : List Char) (y : Char) (rest : List Char),
      (∀ c ∈ xs, p c = true) → p y = false →
      (xs ++ y :: rest).takeWhile p = xs
      ∧ (xs ++ y :: rest).dropWhile p = y :: rest := by
  intro xs
  induction xs with
  | nil =>
    intro y rest _ hy
    simp [List.takeWhile_cons, List.dropWhile_cons, hy]
  | cons c xs' ih =>
    intro y rest h hy
    have hc : p c = true := h c (List.mem_cons_self _ _)
    have ih' := ih y rest (fun x hx => h x (List.mem_cons_of_mem _ hx)) hy
    simp [List.takeWhile_cons, List.dropWhile_cons, hc, ih'.1, ih'.2]

theorem matchDefault_defaultVal (name d : List Char) (hn : name ≠ [])
    (hname : ∀ c ∈ name, nameChar c = true)
    (hd : ∀ c ∈ d, notBrace c = true) :
    matchDefault ('$' :: '\x7b' :: (name ++ ':' :: '-' :: (d ++ ['\x7d'])))
      = some (name, []) := by
  have ht := takeWhile_append_stop nameChar name ':' ('-' :: (d ++ ['\x7d']))
    hname (by decide)
  have hdw := takeWhile_append_stop notBrace d '\x7d' [] hd (by decide)
  have hne : name.isEmpty = false := by
    cases name
    · exact absurd rfl hn
    · rfl
  simp [matchDefault, ht.1, ht.2, hne, hdw.2]

theorem runPass_single (m : List Char → Option (List Char × List Char))
    (wrap : List Char → List Char) (c : Char) (t : List Char)
    (name : List Char) (h : m (c :: t) = some (name, [])) :
    runPass m wrap (c :: t) = wrap name := by
  show passF m wrap (t.length + 1) (c :: t) = wrap name
  simp only [passF, h]
  rw [passF_nil]
  simp

theorem nameChar_of_isBareChar (c : Char) (h : isBareChar c = true) :
    nameChar c = true := by
  have hc := isBareChar_ne c h
  simp [nameChar, hc.2.2.1, hc.2.2.2.1]

theorem rooRewriteList_defaultVal (name d : List Char) (hn : name ≠ [])
    (hname : ∀ c ∈ name, isBareChar c = true)
    (hd : ∀ c ∈ d, notBrace c = true) :
    rooRewriteList ('$' :: '\x7b' :: (name ++ ':' :: '-' :: (d ++ ['\x7d'])))
      = rooWrap name := by
  have hmd := matchDefault_defaultVal name d hn
    (fun c hc => nameChar_of_isBareChar c (hname c hc)) hd
  have hcd : containsDefault
      ('$' :: '\x7b' :: (name ++ ':' :: '-' :: (d ++ ['\x7d']))) = true := by
    simp [containsDefault, hmd]
  have hfirst : runPass matchDefault rooWrap
      ('$' :: '\x7b' :: (name ++ ':' :: '-' :: (d ++ ['\x7d']))) = rooWrap name :=
    runPass_single matchDefault rooWrap '$' _ name hmd
  have htail := rooWrap_tail_no_dollar name hname
  have hbraced : runPass matchBraced rooWrap (rooWrap name) = rooWrap name :=
    runPass_head_fix matchBraced rooWrap matchBraced_ne_dollar '$'
      ('\x7b' :: 'e' :: 'n' :: 'v' :: ':' :: (name ++ ['\x7d'])) rfl htail
  have hbare : runPass matchBare rooWrap (rooWrap name) = rooWrap name :=
    runPass_head_fix matchBare rooWrap matchBare_ne_dollar '$'
      ('\x7b' :: 'e' :: 'n' :: 'v' :: ':' :: (name ++ ['\x7d'])) rfl htail
  simp only [rooRewriteList, hcd, if_true, hfirst, hbraced, hbare]

theorem openRewriteList_defaultVal (name d : List Char) (hn : name ≠ [])
    (hname : ∀ c ∈ name, isBareChar c = true)
    (hd : ∀ c ∈ d, notBrace c = true) :
    openRewriteList ('$' :: '\x7b' :: (name ++ ':' :: '-' :: (d ++ ['\x7d'])))
      = openWrap name := by
  have hmd := matchDefault_defaultVal name d hn
    (fun c hc => nameChar_of_isBareChar c (hname c hc)) hd
  have hcd : containsDefault
      ('$' :: '\x7b' :: (name ++ ':' :: '-' :: (d ++ ['\x7d']))) = true := by
    simp [containsDefault, hmd]
  have hfirst : runPass matchDefault openWrap
      ('$' :: '\x7b' :: (name ++ ':' :: '-' :: (d ++ ['\x7d']))) = openWrap name :=
    runPass_single matchDefault openWrap '$' _ name hmd
  have hnd := openWrap_no_dollar name hname
  have hbraced : runPass matchBraced openWrap (openWrap name) = openWrap name :=
    passF_id_of_no_dollar matchBraced openWrap matchBraced_ne_dollar _ _ hnd
  have hbare : runPass matchBare openWrap (openWrap name) = openWrap name :=
    passF_id_of_no_dollar matchBare openWrap matchBare_ne_dollar _ _ hnd
  simp only [openRewriteList, hcd, if_true, hfirst, hbraced, hbare]

theorem containsDefault_append_pre :
    ∀ (pre t : List Char), '$' ∉ pre →
      containsDefault (pre ++ t) = containsDefault t := by
  intro pre
  induction pre with
  | nil => intro t _; rfl
  | cons c pre' ih =>
    intro t h
    simp only [List.mem_cons, not_or] at h
    obtain ⟨h1, h2⟩ := h
    rw [List.cons_append]
    simp [containsDefault,
      matchDefault_ne_dollar c (pre' ++ t) (fun hh => h1 hh.symm), ih t h2]

theorem passF_append_pre (m : List Char → Option (List Char × List Char))
    (wrap : List Char → List Char)
    (hm : ∀ c l, c ≠ '$' → m (c :: l) = none) :
    ∀ (pre : List Char), '$' ∉ pre → ∀ (fuel : Nat) (t : List Char),
      passF m wrap (pre.length + fuel) (pre ++ t) = pre ++ passF m wrap fuel t := by
  intro pre
  induction pre with
  | nil => intro _ fuel t; simp
  | cons c pre' ih =>
    intro h fuel t
    simp only [List.mem_cons, not_or] at h
    obtain ⟨h1, h2⟩ := h
    have hc := hm c (pre' ++ t) (fun hh => h1 hh.symm)
    have hlen : (c :: pre').length + fuel = (pre'.length + fuel) + 1 := by
      simp [List.length_cons]
      omega
    rw [hlen, List.cons_append]
    simp only [passF, hc]
    rw [ih h2 fuel t]
    rfl

theorem runPass_append_pre (m : List Char → Option (List Char × List Char))
    (wrap : List Char → List Char)
    (hm : ∀ c l, c ≠ '$' → m (c :: l) = none)
    (pre t : List Char) (hpre : '$' ∉ pre) :
    runPass m wrap (pre ++ t) = pre ++ runPass m wrap t := by
  unfold runPass
  rw [List.length_append]
  exact passF_append_pre m wrap hm pre hpre t.length t

theorem runPass_match_clean (m : List Char → Option (List Char × List Char))
    (wrap : List Char → List Char)
    (hm : ∀ c l, c ≠ '$' → m (c :: l) = none)
    (c : Char) (t name suf : List Char)
    (h : m (c :: t) = some (name, suf)) (hs : '$' ∉ suf) :
    runPass m wrap (c :: t) = wrap name ++ suf := by
  show passF m wrap (t.length + 1) (c :: t) = wrap name ++ suf
  simp only [passF, h]
  rw [passF_id_of_no_dollar m wrap hm t.length suf hs]

theorem matchDefault_defaultVal_suf (name d suf : List Char) (hn : name ≠ [])
    (hname : ∀ c ∈ name, nameChar c = true)
    (hd : ∀ c ∈ d, notBrace c = true) :
    matchDefault ('$' :: '\x7b' :: (name ++ ':' :: '-' :: (d ++ '\x7d' :: suf)))
      = some (name, suf) := by
  have ht := takeWhile_append_stop nameChar name ':' ('-' :: (d ++ '\x7d' :: suf))
    hname (by decide)
  have hdw := takeWhile_append_stop notBrace d '\x7d' suf hd (by decide)
  have hne : name.isEmpty = false := by
    cases name
    · exact absurd rfl hn
    · rfl
  simp [matchDefault, ht.1, ht.2, hne, hdw.2]

theorem matchDefault_rooWrapSuf_none (name suf : List Char) (hn : name ≠ [])
    (hv : ∀ c ∈ name, isBareChar c = true) :
    matchDefault
      ('$' :: '\x7b' :: 'e' :: 'n' :: 'v' :: ':' :: (name ++ '\x7d' :: suf))
      = none := by
  cases name with
  | nil => exact absurd rfl hn
  | cons c v' =>
    have hc : c ≠ '-' := (isBareChar_ne c (hv c (List.mem_cons_self _ _))).2.1
    rw [List.cons_append]
    have h1 : List.takeWhile nameChar
        ('e' :: 'n' :: 'v' :: ':' :: (c :: (v' ++ '\x7d' :: suf)))
        = ['e', 'n', 'v'] := rfl
    have h2 : List.dropWhile nameChar
        ('e' :: 'n' :: 'v' :: ':' :: (c :: (v' ++ '\x7d' :: suf)))
        = ':' :: (c :: (v' ++ '\x7d' :: suf)) := rfl
    simp [matchDefault, h1, h2, hc]

theorem rooWrapSuf_tail_no_dollar (name suf : List Char)
    (hname : ∀ c ∈ name, isBareChar c = true) (hsuf : '$' ∉ suf) :
    '$' ∉ ('\x7b' :: 'e' :: 'n' :: 'v' :: ':' :: (name ++ '\x7d' :: suf)) := by
  intro h
  simp only [List.mem_cons, List.mem_append] at h
  rcases h with h | h | h | h | h | h | h | h
  · exact absurd h (by decide)
  · exact absurd h (by decide)
  · exact absurd h (by decide)
  · exact absurd h (by decide)
  · exact absurd h (by decide)
  · exact absurd (hname '$' h) (by decide)
  · exact absurd h (by decide)
  · exact hsuf h

theorem rooWrap_append (name suf : List Char) :
    rooWrap name ++ suf
      = '$' :: '\x7b' :: 'e' :: 'n' :: 'v' :: ':' :: (name ++ '\x7d' :: suf) := by
  simp [rooWrap]

theorem openWrap_append (name suf : List Char) :
    openWrap name ++ suf
      = '\x7b' :: 'e' :: 'n' :: 'v' :: ':' :: (name ++ '\x7d' :: suf) := by
  simp [openWrap]

theorem openWrapSuf_no_dollar (name suf : List Char)
    (hname : ∀ c ∈ name, isBareChar c = true) (hsuf : '$' ∉ suf) :
    '$' ∉ (openWrap name ++ suf) := by
  intro h
  rcases List.mem_append.mp h with h | h
  · exact openWrap_no_dollar name hname h
  · exact hsuf h

theorem rooRewriteList_pre_suf (pre name d suf : List Char)
    (hpre : '$' ∉ pre) (hsuf : '$' ∉ suf) (hn : name ≠ [])
    (hname : ∀ c ∈ name, isBareChar c = true)
    (hd : ∀ c ∈ d, notBrace c = true) :
    rooRewriteList
      (pre ++ '$' :: '\x7b' :: (name ++ ':' :: '-' :: (d ++ '\x7d' :: suf)))
      = pre ++ rooWrap name ++ suf := by
  have hmd := matchDefault_defaultVal_suf name d suf hn
    (fun c hc => nameChar_of_isBareChar c (hname c hc)) hd
  have hcd : containsDefault
      (pre ++ '$' :: '\x7b' :: (name ++ ':' :: '-' :: (d ++ '\x7d' :: suf)))
      = true := by
    rw [containsDefault_append_pre _ _ hpre]
    simp [containsDefault, hmd]
  have htail := rooWrapSuf_tail_no_dollar name suf hname hsuf
  have hp1 : runPass matchDefault rooWrap
      (pre ++ '$' :: '\x7b' :: (name ++ ':' :: '-' :: (d ++ '\x7d' :: suf)))
      = pre ++ (rooWrap name ++ suf) := by
    rw [runPass_append_pre matchDefault rooWrap matchDefault_ne_dollar pre _ hpre,
      runPass_match_clean matchDefault rooWrap matchDefault_ne_dollar '$' _
        name suf hmd hsuf]
  have hb : runPass matchBraced rooWrap (rooWrap name ++ suf)
      = rooWrap name ++ suf := by
    rw [rooWrap_append]
    exact runPass_head_fix matchBraced rooWrap matchBraced_ne_dollar '$' _
      rfl htail
  have hbr : runPass matchBare rooWrap (rooWrap name ++ suf)
      = rooWrap name ++ suf := by
    rw [rooWrap_append]
    exact runPass_head_fix matchBare rooWrap matchBare_ne_dollar '$' _
      rfl htail
  have hp2 : runPass matchBraced rooWrap (pre ++ (rooWrap name ++ suf))
      = pre ++ (rooWrap name ++ suf) := by
    rw [runPass_append_pre matchBraced rooWrap matchBraced_ne_dollar pre _ hpre,
      hb]
  have hp3 : runPass matchBare rooWrap (pre ++ (rooWrap name ++ suf))
      = pre ++ (rooWrap name ++ suf) := by
    rw [runPass_append_pre matchBare rooWrap matchBare_ne_dollar pre _ hpre,
      hbr]
  simp only [rooRewriteList, hcd, if_true, hp1, hp2, hp3]
  rw [List.append_assoc]

theorem openRewriteList_pre_suf (pre name d suf : List Char)
    (hpre : '$' ∉ pre) (hsuf : '$' ∉ suf) (hn : name ≠ [])
    (hname : ∀ c ∈ name, isBareChar c = true)
    (hd : ∀ c ∈ d, notBrace c = true) :
    openRewriteList
      (pre ++ '$' :: '\x7b' :: (name ++ ':' :: '-' :: (d ++ '\x7d' :: suf)))
      = pre ++ openWrap name ++ suf := by
  have hmd := matchDefault_defaultVal_suf name d suf hn
    (fun c hc => nameChar_of_isBareChar c (hname c hc)) hd
  have hcd : containsDefault
      (pre ++ '$' :: '\x7b' :: (name ++ ':' :: '-' :: (d ++ '\x7d' :: suf)))
      = true := by
    rw [containsDefault_append_pre _ _ hpre]
    simp [containsDefault, hmd]
  have hnd : '$' ∉ (pre ++ (openWrap name ++ suf)) := by
    intro h
    rcases List.mem_append.mp h with h | h
    · exact hpre h
    · exact openWrapSuf_no_dollar name suf hname hsuf h
  have hp1 : runPass matchDefault openWrap
      (pre ++ '$' :: '\x7b' :: (name ++ ':' :: '-' :: (d ++ '\x7d' :: suf)))
      = pre ++ (openWrap name ++ suf) := by
    rw [runPass_append_pre matchDefault openWrap matchDefault_ne_dollar pre _ hpre,
      runPass_match_clean matchDefault openWrap matchDefault_ne_dollar '$' _
        name suf hmd hsuf]
  have hp2 : runPass matchBraced openWrap (pre ++ (openWrap name ++ suf))
      = pre ++ (openWrap name ++ suf) :=
    passF_id_of_no_dollar matchBraced openWrap matchBraced_ne_dollar _ _ hnd
  have hp3 : runPass matchBare openWrap (pre ++ (openWrap name ++ suf))
      = pre ++ (openWrap name ++ suf) :=
    passF_id_of_no_dollar matchBare openWrap matchBare_ne_dollar _ _ hnd
  simp only [openRewriteList, hcd, if_true, hp1, hp2, hp3]
  rw [List.append_assoc]

theorem containsDefault_roo_output (pre name suf : List Char)
    (hpre : '$' ∉ pre) (hsuf : '$' ∉ suf) (hn : name ≠ [])
    (hname : ∀ c ∈ name, isBareChar c = true) :
    containsDefault (pre ++ rooWrap name ++ suf) = false := by
  rw [List.append_assoc, containsDefault_append_pre _ _ hpre, rooWrap_append]
  have htail := rooWrapSuf_tail_no_dollar name suf hname hsuf
  have h1 : containsDefault
      ('$' :: '\x7b' :: 'e' :: 'n' :: 'v' :: ':' :: (name ++ '\x7d' :: suf))
      = ((matchDefault
          ('$' :: '\x7b' :: 'e' :: 'n' :: 'v' :: ':' :: (name ++ '\x7d' :: suf))).isSome
        || containsDefault
          ('\x7b' :: 'e' :: 'n' :: 'v' :: ':' :: (name ++ '\x7d' :: suf))) := rfl
  rw [h1, matchDefault_rooWrapSuf_none name suf hn hname,
    containsDefault_eq_false_of_no_dollar _ htail]
  rfl

theorem containsDefault_open_output (pre name suf : List Char)
    (hpre : '$' ∉ pre) (hsuf : '$' ∉ suf)
    (hname : ∀ c ∈ name, isBareChar c = true) :
    containsDefault (pre ++ openWrap name ++ suf) = false := by
  rw [List.append_assoc, containsDefault_append_pre _ _ hpre]
  exact containsDefault_eq_false_of_no_dollar _
    (openWrapSuf_no_dollar name suf hname hsuf)

/-- C7 amended: text already in the target dialect is a fixed point of the
Roo Code and OpenCode rewriters — `$\x7benv:VAR\x7d` resp. `\x7benv:VAR\x7d`
spans (variable names over `[A-Z0-9_]`) pass through unchanged and are never
double-wrapped, so the rewriters are idempotent on such text — and remaining
canonical references in mixed strings are still converted; full idempotence
on every string fails (see the counterexample). -/
theorem C7_dialect_fixed_point :
    (∀ v : List Char, (∀ c ∈ v, isBareChar c = true) →
      rooRewriteList (rooWrap v) = rooWrap v
      ∧ rooRewriteList (rooRewriteList (rooWrap v)) = rooRewriteList (rooWrap v)
      ∧ openRewriteList (openWrap v) = openWrap v
      ∧ openRewriteList (openRewriteList (openWrap v))
        = openRewriteList (openWrap v))
    ∧ rooRewrite "prefix_$\x7benv:FOO\x7d_$BAR"
      = "prefix_$\x7benv:FOO\x7d_$\x7benv:BAR\x7d"
    ∧ openRewrite "pre_\x7benv:FOO\x7d_$BAR"
      = "pre_\x7benv:FOO\x7d_\x7benv:BAR\x7d" := by
  refine ⟨?_, by decide, by decide⟩
  intro v hv
  have hroo := rooRewriteList_rooWrap v hv
  have hopen := openRewriteList_openWrap v hv
  exact ⟨hroo, by rw [hroo, hroo], hopen, by rw [hopen, hopen]⟩

/-- C7 counterexample: the rewriters are not idempotent on every string —
on `$\x7ba$\x7bb\x7d` a second application converts the inner reference the
first one re-exposed. -/
theorem C7_not_idempotent_counterexample :
    rooRewrite (rooRewrite "$\x7ba$\x7bb\x7d") ≠ rooRewrite "$\x7ba$\x7bb\x7d"
    ∧ openRewrite (openRewrite "$\x7ba$\x7bb\x7d")
      ≠ openRewrite "$\x7ba$\x7bb\x7d" := by
  constructor <;> decide

/-- C7 witness: the dialect span `$\x7benv:VAR\x7d` is a fixed point. -/
theorem C7_dialect_fixed_point_witness :
    rooRewriteList (rooWrap ['V', 'A', 'R']) = rooWrap ['V', 'A', 'R']
    ∧ openRewriteList (openWrap ['V', 'A', 'R']) = openWrap ['V', 'A', 'R'] := by
  have h := C7_dialect_fixed_point.1 ['V', 'A', 'R'] (by decide)
  exact ⟨h.1, h.2.2.1⟩

/-- C8: every value on which the default-reference pattern fires — whatever
surrounds the occurrence — makes both rewriters append one warning naming
the server and the key (resp. field context) whose value carried the
default; and for a value containing one `$\x7bVAR:-default\x7d` occurrence
between reference-free prefix and suffix text, the occurrence becomes
`$\x7benv:VAR\x7d` (Roo Code) resp. `\x7benv:VAR\x7d` (OpenCode) in place —
the default text of the occurrence is gone and no default-pattern occurrence
remains in the output. -/
theorem C8_default_dropped_with_warning :
    (∀ (sv k ctx val : String), containsDefault val.toList = true →
      (transformEnvForRoo sv [(k, val)]).2 = [rooDefaultWarning sv k]
      ∧ (transformEnvForOpenCode sv ctx [(k, val)]).2
        = [openDefaultWarning sv ctx k])
    ∧ (∀ (sv k val : String) (pre name d suf : List Char),
      val.toList
        = pre ++ '$' :: '\x7b' :: (name ++ ':' :: '-' :: (d ++ '\x7d' :: suf)) →
      '$' ∉ pre → '$' ∉ suf → name ≠ [] →
      (∀ c ∈ name, isBareChar c = true) →
      (∀ c ∈ d, notBrace c = true) →
      transformEnvForRoo sv [(k, val)]
        = ([(k, (pre ++ rooWrap name ++ suf).asString)],
           [rooDefaultWarning sv k])
      ∧ transformEnvForOpenCode sv "environment" [(k, val)]
        = ([(k, (pre ++ openWrap name ++ suf).asString)],
           [openDefaultWarning sv "environment" k])
      ∧ containsDefault (pre ++ rooWrap name ++ suf) = false
      ∧ containsDefault (pre ++ openWrap name ++ suf) = false)
    ∧ (∀ sv k : String, rooDefaultWarning sv k
      = "Roo Code does not support env var defaults. Server \"" ++ sv
        ++ "\" env \"" ++ k ++ "\": defaults will be dropped.")
    ∧ (∀ sv k : String, openDefaultWarning sv "headers" k
      = "OpenCode does not support env var defaults. Server \"" ++ sv
        ++ "\" " ++ "headers" ++ " \"" ++ k ++ "\": defaults will be dropped.") := by
  refine ⟨?_, ?_, fun _ _ => rfl, fun _ _ => rfl⟩
  · intro sv k ctx val hcd
    constructor
    · show (if containsDefault val.toList
          then [] ++ [rooDefaultWarning sv k] else []) = [rooDefaultWarning sv k]
      rw [hcd]
      rfl
    · show (if containsDefault val.toList
          then [] ++ [openDefaultWarning sv ctx k] else [])
        = [openDefaultWarning sv ctx k]
      rw [hcd]
      rfl
  · intro sv k val pre name d suf hval hpre hsuf hn hname hd
    have hmd := matchDefault_defaultVal_suf name d suf hn
      (fun c hc => nameChar_of_isBareChar c (hname c hc)) hd
    have hcd : containsDefault val.toList = true := by
      rw [hval, containsDefault_append_pre _ _ hpre]
      simp [containsDefault, hmd]
    have hroo : rooRewrite val = (pre ++ rooWrap name ++ suf).asString := by
      unfold rooRewrite
      rw [hval, rooRewriteList_pre_suf pre name d suf hpre hsuf hn hname hd]
    have hopen : openRewrite val = (pre ++ openWrap name ++ suf).asString := by
      unfold openRewrite
      rw [hval, openRewriteList_pre_suf pre name d suf hpre hsuf hn hname hd]
    refine ⟨?_, ?_, containsDefault_roo_output pre name suf hpre hsuf hn hname,
      containsDefault_open_output pre name suf hpre hsuf hname⟩
    · show (putKey [] k (rooRewrite val),
        if containsDefault val.toList
          then [] ++ [rooDefaultWarning sv k] else [])
        = ([(k, (pre ++ rooWrap name ++ suf).asString)], [rooDefaultWarning sv k])
      rw [hcd, hroo]
      rfl
    · show (putKey [] k (openRewrite val),
        if containsDefault val.toList
          then [] ++ [openDefaultWarning sv "environment" k] else [])
        = ([(k, (pre ++ openWrap name ++ suf).asString)],
           [openDefaultWarning sv "environment" k])
      rw [hcd, hopen]
      rfl

/-- C8 witness: the mixed value `x_$\x7bVAR:-d\x7d_y` keeps its prefix and
suffix, loses the default in place, and triggers the server-and-key-naming
warning; a value with two references and a default also gets the warning. -/
theorem C8_default_dropped_with_warning_witness :
    transformEnvForRoo "srv" [("K", "x_$\x7bVAR:-d\x7d_y")]
      = ([("K", ("x_".toList ++ rooWrap "VAR".toList ++ "_y".toList).asString)],
         [rooDefaultWarning "srv" "K"])
    ∧ transformEnvForOpenCode "srv" "environment" [("K", "x_$\x7bVAR:-d\x7d_y")]
      = ([("K", ("x_".toList ++ openWrap "VAR".toList ++ "_y".toList).asString)],
         [openDefaultWarning "srv" "environment" "K"])
    ∧ (transformEnvForRoo "srv" [("K2", "a $\x7bP:-q\x7d b $\x7bQ\x7d")]).2
      = [rooDefaultWarning "srv" "K2"]
    ∧ (transformEnvForOpenCode "srv" "headers"
        [("K2", "a $\x7bP:-q\x7d b $\x7bQ\x7d")]).2
      = [openDefaultWarning "srv" "headers" "K2"] := by
  have h2 := C8_default_dropped_with_warning.2.1 "srv" "K" "x_$\x7bVAR:-d\x7d_y"
    "x_".toList "VAR".toList "d".toList "_y".toList (by decide) (by decide)
    (by decide) (by decide) (by decide) (by decide)
  have h1 := C8_default_dropped_with_warning.1 "srv" "K2" "headers"
    "a $\x7bP:-q\x7d b $\x7bQ\x7d" (by decide)
  exact ⟨h2.1, h2.2.1, h1.1, h1.2⟩

/-- C9: for every agent and every server of a registry with unique server
names, a matching exclusion rule or a per-agent override with
`enabled = false` keeps the server out of that agent's emitted native server
set, whatever its validation outcome. -/
theorem C9_exclusion_suppresses (dn an : String) (caps : AgentCapabilities)
    (transform : String → Server → α) (cfg : CanonicalConfig)
    (name : String) (server : Server)
    (hmem : (name, server) ∈ cfg.servers)
    (hnodup : (cfg.servers.map Prod.fst).Nodup)
    (hexcl : (∃ e ∈ cfg.exclusions, e.server = name ∧ e.agent = an)
      ∨ ∃ o, alookup server.agentsOf an = some o ∧ o.enabled = some false) :
    alookup (computeServers dn an caps transform cfg) name = none := by
  have hinc : shouldIncludeServer an name server cfg = false := by
    rcases hexcl with h | ⟨o, ho, he⟩
    · exact shouldIncludeServer_eq_false_of_exclusion an name server cfg h
    · exact shouldIncludeServer_eq_false_of_override an name server cfg o ho he
  have h := computeServersGo_alookup dn an caps transform cfg cfg.servers []
    name server hmem hnodup
  simp [computeServers, h, hinc, alookup]

/-- C9 witness: the server `srv`, excluded for opencode by an exclusion rule,
is absent from the OpenCode write output. -/
theorem C9_exclusion_suppresses_witness :
    alookup (computeServers "OpenCode" "opencode" opencodeCaps
      (fun n s => opencodeTransformServer cfgExcluded n s) cfgExcluded) "srv"
      = none := by
  exact C9_exclusion_suppresses "OpenCode" "opencode" opencodeCaps
    (fun n s => opencodeTransformServer cfgExcluded n s) cfgExcluded
    "srv" srvMinimal (by decide) (by decide)
    (Or.inl ⟨{ server := "srv", agent := "opencode" }, by decide, rfl, rfl⟩)

/-- C10: when the OpenCode or Amp write returns normally, the result has
`success = true` and `serversWritten` equal to the size of the emitted native
set (after exclusion and error filtering); when every server is excluded, the
emitted set is empty and a replace-mode write still succeeds with
`serversWritten = 0`, rewriting the file with an empty MCP-server subtree. -/
theorem C10_write_success (cfg : CanonicalConfig) (path : String)
    (merge force : Bool) (pid : Nat) (wf : Bool) (fs : FS) :
    (∀ r, (opencodeWrite cfg path merge force pid wf fs).result = .ok r →
      r.success = true ∧ r.serversWritten = (opencodeComputeServers cfg).length)
    ∧ (∀ r, (ampWrite cfg path merge force pid wf fs).result = .ok r →
      r.success = true ∧ r.serversWritten = (ampComputeServers cfg).length)
    ∧ ((∀ p ∈ cfg.servers, shouldIncludeServer "opencode" p.1 p.2 cfg = false) →
      opencodeComputeServers cfg = [])
    ∧ (∀ existing, fsLookup fs path = some (.parsed existing) →
      (∀ p ∈ cfg.servers, shouldIncludeServer "opencode" p.1 p.2 cfg = false) →
      (opencodeWrite cfg path false force pid false fs).result
        = .ok { success := true, serversWritten := 0 }
      ∧ fsLookup (opencodeWrite cfg path false force pid false fs).fs path
        = some (.parsed (putKey existing "mcp" (.obj [])))) := by
  refine ⟨?_, ?_, ?_, ?_⟩
  · intro r hr
    cases hre : readExistingStrict path force fs with
    | error e =>
      simp only [opencodeWrite, hre] at hr
      exact absurd hr (by simp)
    | ok existing =>
      simp only [opencodeWrite, hre] at hr
      by_cases hok : (atomicWrite path
          (.parsed (opencodeUpdateFile existing (opencodeComputeServers cfg) merge))
          true pid wf fs).ok
      · simp only [hok, if_true] at hr
        cases hr
        exact ⟨rfl, rfl⟩
      · simp [hok] at hr
  · intro r hr
    cases hre : readExistingStrict path force fs with
    | error e =>
      simp only [ampWrite, hre] at hr
      exact absurd hr (by simp)
    | ok existing =>
      simp only [ampWrite, hre] at hr
      by_cases hok : (atomicWrite path
          (.parsed (ampUpdateFile existing (ampComputeServers cfg) merge))
          true pid wf fs).ok
      · simp only [hok, if_true] at hr
        cases hr
        exact ⟨rfl, rfl⟩
      · simp [hok] at hr
  · intro hall
    exact computeServersGo_all_skip "OpenCode" "opencode" opencodeCaps
      (fun n s => opencodeTransformServer cfg n s) cfg cfg.servers [] hall
  · intro existing hlook hall
    have hservers : opencodeComputeServers cfg = [] :=
      computeServersGo_all_skip "OpenCode" "opencode" opencodeCaps
        (fun n s => opencodeTransformServer cfg n s) cfg cfg.servers [] hall
    have hre : readExistingStrict path force fs = .ok existing := by
      simp [readExistingStrict, hlook, parseContent]
    have hupd : opencodeUpdateFile existing (opencodeComputeServers cfg) false
        = putKey existing "mcp" (.obj []) := by
      rw [hservers]
      rfl
    constructor
    · simp only [opencodeWrite, hre, hupd]
      rw [atomicWrite_ok_ok]
      simp [hservers]
    · simp only [opencodeWrite, hre, hupd]
      exact atomicWrite_ok_target path _ true pid fs

/-- The merge-free subtree update: the MCP key is replaced wholesale, every
other top-level key keeps its value. -/
theorem replaceOrMergeSubtree_false (key : String)
    (existing servers : List (String × JVal)) :
    alookup (replaceOrMergeSubtree key existing servers false) key
      = some (.obj servers)
    ∧ ∀ k, k ≠ key → alookup (replaceOrMergeSubtree key existing servers false) k
      = alookup existing k := by
  constructor
  · exact alookup_putKey_self existing key _
  · intro k hk
    exact alookup_putKey_ne existing key k _ hk

/-- C1 amended: for the Roo Code, OpenCode, Gemini CLI, Amp and Codex
adapters, a merge-free write replaces the MCP-server subtree wholesale with
the computed set — any name absent from the computed set is absent from the
resulting subtree — and preserves every other top-level key; the Claude Code
adapter instead spread-merges the computed set into the existing subtree
(see the counterexample). -/
theorem C1_replace_preserves (existing servers : List (String × JVal)) :
    (alookup (rooUpdateFile existing servers false) "mcpServers"
        = some (.obj servers)
      ∧ ∀ k, k ≠ "mcpServers" →
        alookup (rooUpdateFile existing servers false) k = alookup existing k)
    ∧ (alookup (opencodeUpdateFile existing servers false) "mcp"
        = some (.obj servers)
      ∧ ∀ k, k ≠ "mcp" →
        alookup (opencodeUpdateFile existing servers false) k = alookup existing k)
    ∧ (alookup (geminiUpdateFile existing servers false) "mcpServers"
        = some (.obj servers)
      ∧ ∀ k, k ≠ "mcpServers" →
        alookup (geminiUpdateFile existing servers false) k = alookup existing k)
    ∧ (alookup (ampUpdateFile existing servers false) "amp.mcpServers"
        = some (.obj servers)
      ∧ ∀ k, k ≠ "amp.mcpServers" →
        alookup (ampUpdateFile existing servers false) k = alookup existing k)
    ∧ (alookup (codexUpdateFile existing servers false) "mcp_servers"
        = some (.obj servers)
      ∧ ∀ k, k ≠ "mcp_servers" →
        alookup (codexUpdateFile existing servers false) k = alookup existing k)
    ∧ (∀ n, alookup servers n = none →
        alookup (objEntries (alookup (rooUpdateFile existing servers false)
          "mcpServers")) n = none) := by
  refine ⟨replaceOrMergeSubtree_false _ existing servers,
    replaceOrMergeSubtree_false _ existing servers,
    replaceOrMergeSubtree_false _ existing servers,
    replaceOrMergeSubtree_false _ existing servers,
    replaceOrMergeSubtree_false _ existing servers, ?_⟩
  intro n hn
  show alookup (objEntries (alookup
    (replaceOrMergeSubtree "mcpServers" existing servers false) "mcpServers")) n
    = none
  rw [(replaceOrMergeSubtree_false "mcpServers" existing servers).1]
  exact hn

/-- C1 counterexample: the Claude Code adapter does not replace.  Pushing an
empty registry onto an existing Claude config leaves the stale server `old`
in the resulting `mcpServers` subtree even though `old` is not in the
computed set (the unrelated key is preserved, as claimed). -/
theorem C1_claude_merges_counterexample :
    alookup (claudeComputeServers cfgEmpty) "old" = none
    ∧ fsLookup (claudeWriteGlobal cfgEmpty "claude.json" fsClaudeStale).fs
        "claude.json"
      = some (.parsed [("mcpServers", .obj [("old", .obj [])]),
                       ("someOtherSetting", .bool true)]) :=
  ⟨rfl, rfl⟩

/-- C1 witness: concrete replace-mode Roo update. -/
theorem C1_replace_preserves_witness :
    alookup (rooUpdateFile
      [("mcpServers", .obj [("old", .obj [])]), ("keep", .bool true)]
      [("new", .obj [])] false) "mcpServers" = some (.obj [("new", .obj [])])
    ∧ alookup (rooUpdateFile
      [("mcpServers", .obj [("old", .obj [])]), ("keep", .bool true)]
      [("new", .obj [])] false) "keep" = some (.bool true)
    ∧ alookup (objEntries (alookup (rooUpdateFile
      [("mcpServers", .obj [("old", .obj [])]), ("keep", .bool true)]
      [("new", .obj [])] false) "mcpServers")) "old" = none := by
  have h := C1_replace_preserves
    [("mcpServers", .obj [("old", .obj [])]), ("keep", .bool true)]
    [("new", .obj [])]
  exact ⟨h.1.1, (h.1.2 "keep" (by decide)).trans rfl, h.2.2.2.2.2 "old" rfl⟩

/-- C2 amended: for the Roo Code, OpenCode and Amp adapters (and Gemini CLI,
whose read is source-identical), an existing file that fails to parse makes
the write fail with an error naming the config path, leaving the file system
untouched, while `force` proceeds from an empty object; the Codex and Claude
Code adapters instead always treat unparseable content as an empty object
(see the counterexample). -/
theorem C2_parse_failure (cfg : CanonicalConfig) (path : String)
    (merge : Bool) (pid : Nat) (wf : Bool) (fs : FS) (s : String)
    (h : fsLookup fs path = some (.raw s)) :
    ((rooWrite cfg path merge false pid wf fs).result
        = .error (mkParseError path)
      ∧ (rooWrite cfg path merge false pid wf fs).fs = fs
      ∧ (rooWrite cfg path merge false pid wf fs).ops = [])
    ∧ ((opencodeWrite cfg path merge false pid wf fs).result
        = .error (mkParseError path)
      ∧ (opencodeWrite cfg path merge false pid wf fs).fs = fs)
    ∧ ((ampWrite cfg path merge false pid wf fs).result
        = .error (mkParseError path)
      ∧ (ampWrite cfg path merge false pid wf fs).fs = fs)
    ∧ mkParseError path = "Failed to parse " ++ path
        ++ ": <parser error>\nFix the file manually or use --force to overwrite."
    ∧ (rooWrite cfg path merge true pid false fs).result
        = .ok { success := true, serversWritten := (rooComputeServers cfg).length }
    ∧ readExistingLenient path fs = []
    ∧ (codexWrite cfg path merge fs).result
        = .ok { success := true, serversWritten := (codexComputeServers cfg).length } := by
  have hre : readExistingStrict path false fs = .error (mkParseError path) := by
    simp [readExistingStrict, h, parseContent]
  have hreF : readExistingStrict path true fs = .ok [] := by
    simp [readExistingStrict, h, parseContent]
  refine ⟨?_, ?_, ?_, rfl, ?_, ?_, rfl⟩
  · simp [rooWrite, hre]
  · simp [opencodeWrite, hre]
  · simp [ampWrite, hre]
  · simp only [rooWrite, hreF]
    rw [atomicWrite_ok_ok]
    simp
  · simp [readExistingLenient, h, parseContent]

/-- C2 counterexample: the Codex write on an unparseable existing config with
no force flag neither fails nor leaves the file alone — it succeeds and
overwrites the file with a fresh document. -/
theorem C2_codex_lenient_counterexample :
    (codexWrite cfgEmpty "config.toml" false fsRawToml).result
      = .ok { success := true, serversWritten := 0 }
    ∧ fsLookup (codexWrite cfgEmpty "config.toml" false fsRawToml).fs
        "config.toml" = some (.parsed [("mcp_servers", .obj [])]) :=
  ⟨rfl, rfl⟩

/-- C2 witness: a concrete Roo write over an unparseable file fails with the
path-naming error and leaves the file system unchanged. -/
theorem C2_parse_failure_witness :
    (rooWrite cfgEmpty "mcp.json" false false 3 false
        [("mcp.json", .raw "oops")]).result = .error (mkParseError "mcp.json")
    ∧ (rooWrite cfgEmpty "mcp.json" false false 3 false
        [("mcp.json", .raw "oops")]).fs = [("mcp.json", .raw "oops")] := by
  have h := C2_parse_failure cfgEmpty "mcp.json" false 3 false
    [("mcp.json", .raw "oops")] "oops" rfl
  exact ⟨h.1.1, h.1.2.1⟩

/-- C4 amended: `atomicWrite` — used by the Roo Code, OpenCode, Gemini CLI
and Amp writes — persists through a sibling temp file renamed over the
target (the rename being the only trace operation mutating the target),
backs a pre-existing target up to `<path>.bak` first, cleans the temp file
up on a write-step failure leaving the target unchanged, and touches no
unrelated path; the OpenCode write persists exactly through it.  The Codex
and Claude Code writes do not (see the counterexample). -/
theorem C4_atomic_write (path : String) (c old : Content) (b : Bool)
    (pid : Nat) (fs : FS) :
    fsLookup (atomicWrite path c b pid false fs).fs path = some c
    ∧ fsLookup (atomicWrite path c b pid false fs).fs (tempPath path pid) = none
    ∧ ((atomicWrite path c b pid false fs).ops.filter (opTouches path)
        = [.rename (tempPath path pid) path])
    ∧ (fsLookup fs path = some old →
        fsLookup (atomicWrite path c true pid false fs).fs (bakPath path)
          = some old)
    ∧ (∀ q, q ≠ path → q ≠ bakPath path → q ≠ tempPath path pid →
        fsLookup (atomicWrite path c b pid false fs).fs q = fsLookup fs q)
    ∧ (fsLookup (atomicWrite path c b pid true fs).fs path = fsLookup fs path
      ∧ fsLookup (atomicWrite path c b pid true fs).fs (tempPath path pid) = none
      ∧ (atomicWrite path c b pid true fs).ok = false)
    ∧ (∀ cfg merge force existing,
        fsLookup fs path = some (.parsed existing) →
        (opencodeWrite cfg path merge force pid false fs).ops
          = (atomicWrite path
              (.parsed (opencodeUpdateFile existing
                (opencodeComputeServers cfg) merge)) true pid false fs).ops) := by
  refine ⟨atomicWrite_ok_target path c b pid fs,
    atomicWrite_ok_temp path c b pid fs,
    atomicWrite_ok_ops path c b pid fs,
    atomicWrite_ok_backup path c old pid fs,
    fun q hq1 hq2 hq3 => atomicWrite_ok_frame path c b pid fs q hq1 hq2 hq3,
    atomicWrite_fail path c b pid fs, ?_⟩
  intro cfg merge force existing hlook
  have hre : readExistingStrict path force fs = .ok existing := by
    simp [readExistingStrict, hlook, parseContent]
  simp only [opencodeWrite, hre]

/-- C4 counterexample: the Codex write over an existing target performs a
single direct write of the target — no temp file, no rename — and creates no
`<path>.bak` backup. -/
theorem C4_codex_no_backup_counterexample :
    fsExists fsCodexExisting "config.toml" = true
    ∧ (codexWrite cfgEmpty "config.toml" false fsCodexExisting).ops
      = [.write "config.toml"
          (.parsed [("other", .bool true), ("mcp_servers", .obj [])])]
    ∧ fsLookup (codexWrite cfgEmpty "config.toml" false fsCodexExisting).fs
        (bakPath "config.toml") = none :=
  ⟨rfl, rfl, rfl⟩

/-- C4 witness: a concrete successful `atomicWrite` over an existing file. -/
theorem C4_atomic_write_witness :
    fsLookup (atomicWrite "cfg.json" (.parsed [("a", .bool true)]) true 9 false
        [("cfg.json", .parsed [("k", .bool true)])]).fs "cfg.json"
      = some (.parsed [("a", .bool true)])
    ∧ fsLookup (atomicWrite "cfg.json" (.parsed [("a", .bool true)]) true 9 false
        [("cfg.json", .parsed [("k", .bool true)])]).fs (bakPath "cfg.json")
      = some (.parsed [("k", .bool true)])
    ∧ ((atomicWrite "cfg.json" (.parsed [("a", .bool true)]) true 9 false
        [("cfg.json", .parsed [("k", .bool true)])]).ops.filter
          (opTouches "cfg.json")
      = [.rename (tempPath "cfg.json" 9) "cfg.json"]) := by
  have h := C4_atomic_write "cfg.json" (.parsed [("a", .bool true)])
    (.parsed [("k", .bool true)]) true 9
    [("cfg.json", .parsed [("k", .bool true)])]
  exact ⟨h.1, h.2.2.2.1 rfl, h.2.2.1⟩

/-- C10 witness: on the all-excluded registry `cfgExcluded`, a replace-mode
OpenCode write over an existing parseable file succeeds with zero servers
written and an empty `mcp` subtree. -/
theorem C10_write_success_witness :
    (opencodeWrite cfgExcluded "opencode.json" false false 7 false
        [("opencode.json", .parsed [("theme", .str "dark")])]).result
      = .ok { success := true, serversWritten := 0 }
    ∧ fsLookup (opencodeWrite cfgExcluded "opencode.json" false false 7 false
        [("opencode.json", .parsed [("theme", .str "dark")])]).fs "opencode.json"
      = some (.parsed [("theme", .str "dark"), ("mcp", .obj [])]) := by
  have h := (C10_write_success cfgExcluded "opencode.json" false false 7 false
    [("opencode.json", .parsed [("theme", .str "dark")])]).2.2.2
    [("theme", .str "dark")] (by rfl) (by decide)
  exact ⟨h.1, h.2⟩

end McpSync
